import Mathlib

/-!
# Perlin noise visualizer: embedding of `src/main.cc`

The noise pipeline of `main.cc` (`makeGradients`, `toD`, `mix`, `dotProduct`, `clamp`,
`makePixels`) is embedded as executable Lean definitions.

Conventions of the embedding:

* `double` values are rationals (`ℚ`): every finite `double` is a rational number.
  The arithmetic is embedded twice. In the exact embedding (`mix`, `offset`, `blend`,
  `noiseAt`, `scaled`, `pixelVal`, `makePixels`) the operations are exact. In the
  rounded embedding (`mixD`, `offsetD`, `blendD`, `noiseAtD`, `scaledD`, `pixelValD`)
  every `double` operation of the source is followed by `fl`, the IEEE-754 binary64
  rounding to nearest, ties to even. Statements that are sensitive to rounding are
  made about the rounded embedding.
* `int` / `unsigned` loop counters and indices are natural numbers; on the inputs
  the loops of `makePixels` produce (`x, y < 600`) none of the C++ integer
  operations can overflow.
* `std::array<Vector2d, SW * SH>` is a function on `Fin (SW * SH)`; the unchecked
  `operator[]` is a lookup that fails (`none`) outside the array.
* The byte buffer `ps` is represented by the ordered log of the stores
  `tmp[k] = b` that `makePixels` performs, each store a pair `(offset, byte)`.
* The standard-library random engine and distribution used by `makeGradients` are a
  parameter of the embedding: a seeding function and a state-passing draw.
-/

namespace PerlinNoise

/-! ## Constants (main.cc, lines 15-18) -/

/-- Image width in pixels, `const int WIDTH = 600`. -/
def WIDTH : Nat := 600

/-- Image height in pixels, `const int HEIGHT = 600`. -/
def HEIGHT : Nat := 600

/-- Number of gradient columns, `const int SW = 7`. -/
def SW : Nat := 7

/-- Number of gradient rows, `const int SH = 7`. -/
def SH : Nat := 7

/-- Two-component vector, `sf::Vector2<double>`. -/
structure Vector2d where
  x : ℚ
  y : ℚ
deriving DecidableEq, Repr

/-- Gradient grid, `std::array<Vector2d, SW * SH>`. -/
abbrev Grid : Type := Fin (SW * SH) → Vector2d

/-- Unchecked array access `g[k]`: defined only for `k < SW * SH`. -/
def Grid.at? (g : Grid) (k : Nat) : Option Vector2d :=
  if h : k < SW * SH then some (g ⟨k, h⟩) else none

/-- Array store `g[k] = w`: defined only for `k < SW * SH`. -/
def Grid.set? (g : Grid) (k : Nat) (w : Vector2d) : Option Grid :=
  if h : k < SW * SH then some (Function.update g ⟨k, h⟩ w) else none

/-! ## makeGradients (main.cc, lines 24-33) -/

/-- The random source of `makeGradients`. `std::mt19937` and
`std::uniform_real_distribution<double>` are library code outside the repository, so
they are taken as a parameter: `start` is the engine state built by
`std::mt19937 rng(seed)`, and `draw` is one call `distrib(rng)`, which returns a number
and advances the engine state. -/
structure RandomSource (σ : Type) where
  start : ℚ → σ
  draw : σ → ℚ × σ

/-- Line 31, right-hand side: `Vector2d(distrib(rng), distrib(rng))`. C++ leaves the order
in which the two arguments are evaluated to the compiler; `leftFirst` records whether
the first argument receives the first draw. -/
def drawVector {σ : Type} (R : RandomSource σ) (leftFirst : Bool) (r : σ) : Vector2d × σ :=
  let d1 := R.draw r
  let d2 := R.draw d1.2
  (if leftFirst then ⟨d1.1, d2.1⟩ else ⟨d2.1, d1.1⟩, d2.2)

/-- Body of the loop of `makeGradients` for index `i`: `g[i] = Vector2d(...)`. -/
def gradientStep {σ : Type} (R : RandomSource σ) (leftFirst : Bool) (st : Grid × σ) (i : Nat) :
    Option (Grid × σ) :=
  let d := drawVector R leftFirst st.2
  (st.1.set? i d.1).map fun g => (g, d.2)

/-- The function `makeGradients(g, seed)`: the engine is seeded, then the loop
`for (unsigned i = 0; i < g.size(); ++i)` overwrites the entries of `g`, whose size is
`SW * SH`. The result is the grid left in `g`. -/
def makeGradients {σ : Type} (R : RandomSource σ) (leftFirst : Bool) (g : Grid) (seed : ℚ) :
    Option Grid :=
  ((List.range (SW * SH)).foldlM (gradientStep R leftFirst) (g, R.start seed)).map Prod.fst

/-! ## Helper functions (main.cc, lines 37-63) -/

/-- Pixel index of `(x, y)`: `return y * WIDTH + x;`. -/
def toD (x y : Nat) : Nat := y * WIDTH + x

/-- Easing polynomial: `6 * pow(t, 5) - 15 * pow(t, 4) + 10 * pow(t, 3)`. -/
def mix (t : ℚ) : ℚ := 6 * t ^ 5 - 15 * t ^ 4 + 10 * t ^ 3

/-- Dot product: `a.x * b.x + a.y * b.y`. -/
def dotProduct (a b : Vector2d) : ℚ := a.x * b.x + a.y * b.y

/-- Saturation to `[-1, 1]`, with the two tests in the order of the source. -/
def clamp (v : ℚ) : ℚ :=
  if v < -1 then -1
  else if v > 1 then 1
  else v

/-! ## makePixels (main.cc, lines 67-108) -/

/-- Conversion `unsigned(floor(a))` of a non-negative coordinate. -/
def cellIndex (a : ℚ) : Nat := Int.toNat ⌊a⌋

/-- Lines 87-94: the four clamped corner products and their eased bilinear blend `nxy`. -/
def blend (g00 g10 g01 g11 : Vector2d) (u v : ℚ) : ℚ :=
  let n00 := clamp (dotProduct g00 ⟨u, v⟩)
  let n10 := clamp (dotProduct g10 ⟨u - 1, v⟩)
  let n01 := clamp (dotProduct g01 ⟨u, v - 1⟩)
  let n11 := clamp (dotProduct g11 ⟨u - 1, v - 1⟩)
  let nx0 := n00 * (1 - mix u) + n10 * mix u
  let nx1 := n01 * (1 - mix u) + n11 * mix u
  nx0 * (1 - mix v) + nx1 * mix v

/-- Lines 75-94: the blended noise value `nxy` of pixel `(x, y)`; `none` when one of
the four gradient lookups leaves the array. -/
def noiseAt (g : Grid) (x y : Nat) : Option ℚ := do
  let aX : ℚ := (x : ℚ) / 100
  let aY : ℚ := (y : ℚ) / 100
  let i := cellIndex aX
  let j := cellIndex aY
  let u : ℚ := aX - (i : ℚ)
  let v : ℚ := aY - (j : ℚ)
  let g00 ← g.at? (j * SW + i)
  let g10 ← g.at? (j * SW + i + 1)
  let g01 ← g.at? ((j + 1) * SW + i)
  let g11 ← g.at? ((j + 1) * SW + i + 1)
  pure (blend g00 g10 g01 g11 u v)

/-- Lines 82-94 as a function of the cell `(i, j)` and the offsets `(u, v)`: the four
gradient lookups of `noiseAt` followed by the blend. -/
def cellNoise (g : Grid) (i j : Nat) (u v : ℚ) : Option ℚ := do
  let g00 ← g.at? (j * SW + i)
  let g10 ← g.at? (j * SW + i + 1)
  let g01 ← g.at? ((j + 1) * SW + i)
  let g11 ← g.at? ((j + 1) * SW + i + 1)
  pure (blend g00 g10 g01 g11 u v)

/-- Truncation toward zero, the rounding of a C++ floating-to-integer conversion. -/
def truncQ (q : ℚ) : ℤ := if 0 ≤ q then ⌊q⌋ else ⌈q⌉

/-- Narrowing `sf::Uint8(q)`: truncation toward zero, of which the low eight bits
are kept. C++ defines the conversion only when the truncated value fits a byte;
outside that range the model keeps the low byte, as the compiled conversion through
a wider integer register does. -/
def toUint8 (q : ℚ) : Nat := Int.toNat (truncQ q % 256)

/-- The value `nxy * 128 + 128` that line 96 narrows to a byte. -/
def scaled (nxy : ℚ) : ℚ := nxy * 128 + 128

/-- Line 96: `auto val = sf::Uint8(nxy * 128 + 128)` for pixel `(x, y)`. -/
def pixelVal (g : Grid) (x y : Nat) : Option Nat :=
  (noiseAt g x y).map fun nxy => toUint8 (scaled nxy)

/-- Lines 75, 77, 79 (and 76, 78, 80): the fractional offset `u = aX - i` of a pixel
coordinate, the same expression as in `noiseAt`. -/
def offset (p : Nat) : ℚ := (p : ℚ) / 100 - ((cellIndex ((p : ℚ) / 100) : Nat) : ℚ)

/-- Loop state of `makePixels`: the offset of the cursor `tmp` from `ps`, the stores
performed so far, oldest first, each as `(byte offset, byte value)`, and the text sent
to `std::cerr`. -/
structure Raster where
  tmp : Nat
  log : List (Nat × Nat)
  err : List String
deriving DecidableEq, Repr

/-- Lines 98-99: `if (mix(u) > 1) std::cerr << "Bad ";`. -/
def diagnose (s : Raster) (u : ℚ) : Raster :=
  if mix u > 1 then { s with err := s.err ++ ["Bad "] } else s

/-- Lines 101-105: the four stores through `tmp`, then `tmp += 4`. -/
def writePixel (s : Raster) (val : Nat) : Raster :=
  { s with
    tmp := s.tmp + 4
    log := s.log ++ [(s.tmp, val), (s.tmp + 1, 0), (s.tmp + 2, val), (s.tmp + 3, 255)] }

/-- Body of the inner loop for column `x` of row `y`: the byte of line 96, the
diagnostic of lines 98-99, the stores of lines 101-105. -/
def pixelStep (g : Grid) (y : Nat) (s : Raster) (x : Nat) : Option Raster :=
  (pixelVal g x y).map fun val => writePixel (diagnose s (offset x)) val

/-- Inner loop `for (int x = 0; x < WIDTH; ++x)` of row `y`. -/
def rowStep (g : Grid) (s : Raster) (y : Nat) : Option Raster :=
  (List.range WIDTH).foldlM (pixelStep g y) s

/-- Outer loop `for (int y = 0; y < HEIGHT; ++y)`, started with `tmp = ps`. -/
def makePixels (g : Grid) : Option Raster :=
  (List.range HEIGHT).foldlM (rowStep g) { tmp := 0, log := [], err := [] }

/-! ## Binary64 rounding and the rounded computation of makePixels -/

/-- Number of binary digits of `n`, counted by removing 64, 8 or 1 low digits at a
time; the first argument bounds the number of steps and is taken as `n` itself. -/
def bitLen : Nat → Nat → Nat
  | 0, _ => 0
  | f + 1, n =>
    if n = 0 then 0
    else if 2 ^ 64 ≤ n then bitLen f (n / 2 ^ 64) + 64
    else if 2 ^ 8 ≤ n then bitLen f (n / 2 ^ 8) + 8
    else bitLen f (n / 2) + 1

/-- Rounding to the nearest integer, a tie going to the even neighbour. -/
def roundEven (q : ℚ) : ℤ :=
  if q - ⌊q⌋ < 1 / 2 then ⌊q⌋
  else if 1 / 2 < q - ⌊q⌋ then ⌊q⌋ + 1
  else if ⌊q⌋ % 2 = 0 then ⌊q⌋ else ⌊q⌋ + 1

/-- Integer part of the binary logarithm of a positive rational `a`: the exponent `k`
with `2 ^ k ≤ a < 2 ^ (k + 1)`. The difference of the bit lengths of numerator and
denominator is `k` or `k + 1`; the comparison picks the right one. -/
def ilog2 (a : ℚ) : ℤ :=
  if (2 : ℚ) ^ ((bitLen a.num.natAbs a.num.natAbs : ℤ) - (bitLen a.den a.den : ℤ)) ≤ a
  then (bitLen a.num.natAbs a.num.natAbs : ℤ) - (bitLen a.den a.den : ℤ)
  else (bitLen a.num.natAbs a.num.natAbs : ℤ) - (bitLen a.den a.den : ℤ) - 1

/-- Exponent of the spacing of the `double`s around `q`: 52 below the binary exponent of
`q`, so that the significand has 53 bits, and never below `-1074`, the spacing of the
subnormal numbers. -/
def ulpExp (q : ℚ) : ℤ := max (ilog2 |q| - 52) (-1074)

/-- Rounding of an exact result to the nearest `double` (IEEE-754 binary64, round to
nearest, ties to even). Overflow is not represented: a result beyond the largest finite
`double` is rounded to 53 bits instead of becoming an infinity. In `makePixels` the
only operation whose result can be that large is the sum in `dotProduct`, and its result
goes straight to `clamp`, which returns `1` or `-1` for an infinity and for the large
number alike. -/
def fl (q : ℚ) : ℚ := (roundEven (q / 2 ^ ulpExp q) : ℚ) * 2 ^ ulpExp q

/-- The library call `pow(t, n)` for a small integer exponent, taken as correctly
rounded. -/
def powD (t : ℚ) (n : Nat) : ℚ := fl (t ^ n)

/-- The function `mix` as the source evaluates it on `double`s (line 46): three calls of
`pow`, three products, a difference and a sum, each rounded on its own (no fused
multiply-add). -/
def mixD (t : ℚ) : ℚ := fl (fl (fl (6 * powD t 5) - fl (15 * powD t 4)) + fl (10 * powD t 3))

/-- The function `dotProduct` on `double`s (line 53): two products and a sum, each rounded. -/
def dotProductD (a b : Vector2d) : ℚ := fl (fl (a.x * b.x) + fl (a.y * b.y))

/-- Lines 75, 77, 79 on `double`s: `aX = x / 100.0`, `i = unsigned(floor(aX))`,
`u = aX - i`. -/
def offsetD (p : Nat) : ℚ :=
  fl (fl ((p : ℚ) / 100) - ((cellIndex (fl ((p : ℚ) / 100)) : Nat) : ℚ))

/-- Lines 87-94 on `double`s: every subtraction, product and sum is rounded; `clamp`
only compares and needs no rounding. -/
def blendD (g00 g10 g01 g11 : Vector2d) (u v : ℚ) : ℚ :=
  let n00 := clamp (dotProductD g00 ⟨u, v⟩)
  let n10 := clamp (dotProductD g10 ⟨fl (u - 1), v⟩)
  let n01 := clamp (dotProductD g01 ⟨u, fl (v - 1)⟩)
  let n11 := clamp (dotProductD g11 ⟨fl (u - 1), fl (v - 1)⟩)
  let nx0 := fl (fl (n00 * fl (1 - mixD u)) + fl (n10 * mixD u))
  let nx1 := fl (fl (n01 * fl (1 - mixD u)) + fl (n11 * mixD u))
  fl (fl (nx0 * fl (1 - mixD v)) + fl (nx1 * mixD v))

/-- Lines 75-94 on `double`s: the blended noise value `nxy` of pixel `(x, y)` as the
source computes it; `none` when a gradient lookup leaves the array. -/
def noiseAtD (g : Grid) (x y : Nat) : Option ℚ := do
  let aX : ℚ := fl ((x : ℚ) / 100)
  let aY : ℚ := fl ((y : ℚ) / 100)
  let i := cellIndex aX
  let j := cellIndex aY
  let u : ℚ := fl (aX - (i : ℚ))
  let v : ℚ := fl (aY - (j : ℚ))
  let g00 ← g.at? (j * SW + i)
  let g10 ← g.at? (j * SW + i + 1)
  let g01 ← g.at? ((j + 1) * SW + i)
  let g11 ← g.at? ((j + 1) * SW + i + 1)
  pure (blendD g00 g10 g01 g11 u v)

/-- The `double` value `nxy * 128 + 128` of line 96: a product and a sum, each rounded. -/
def scaledD (nxy : ℚ) : ℚ := fl (fl (nxy * 128) + 128)

/-- Line 96 on `double`s: `auto val = sf::Uint8(nxy * 128 + 128)` for pixel `(x, y)`. -/
def pixelValD (g : Grid) (x y : Nat) : Option Nat :=
  (noiseAtD g x y).map fun nxy => toUint8 (scaledD nxy)

/-- Lines 98-99 on `double`s: `if (mix(u) > 1) std::cerr << "Bad ";`. -/
def diagnoseD (s : Raster) (u : ℚ) : Raster :=
  if mixD u > 1 then { s with err := s.err ++ ["Bad "] } else s

/-! ## Closed form of the store log -/

/-- Intensity of pixel `(x, y)`, with `0` standing for a failed lookup. -/
def valOf (g : Grid) (x y : Nat) : Nat := (pixelVal g x y).getD 0

/-- The store expected at position `k` of the log: byte `k % 4` of pixel number `k / 4`,
which is pixel `((k / 4) % WIDTH, (k / 4) / WIDTH)`, written to offset `k`. -/
def storeAt (g : Grid) (k : Nat) : Nat × Nat :=
  (k, match k % 4 with
      | 0 => valOf g ((k / 4) % WIDTH) ((k / 4) / WIDTH)
      | 1 => 0
      | 2 => valOf g ((k / 4) % WIDTH) ((k / 4) / WIDTH)
      | _ => 255)

/-- The loop state expected once the first `p` pixels have been written. -/
def rasterUpTo (g : Grid) (p : Nat) : Raster :=
  { tmp := 4 * p, log := (List.range (4 * p)).map (storeAt g), err := [] }

/-! ## Definitions that follow the specification's wording -/

/-- Byte intensity as the specification words it: `round(value * 128 + 128)`,
clamped into `[0, 255]`. -/
def specIntensity (value : ℚ) : ℤ := max 0 (min 255 (round (value * 128 + 128)))

/-! ## Grids used as concrete inputs -/

/-- The grid whose 49 gradients are all the zero vector. -/
def zeroGrid : Grid := fun _ => ⟨0, 0⟩

/-- The grid whose 49 gradients are all the vector `v`. -/
def constGrid (v : Vector2d) : Grid := fun _ => v

/-- A grid with gradients of length 2: `(0, 2)` on the first row of the grid and
`(0, -2)` on every other row. -/
def peakGrid : Grid := fun k => if k.val < 7 then ⟨0, 2⟩ else ⟨0, -2⟩

/-- The zero grid with its last gradient, entry `48`, replaced by `(1, 1)`. -/
def bumpGrid : Grid := Function.update zeroGrid ⟨48, by decide⟩ ⟨1, 1⟩

/-- A grid with components `±(1 - 2^-53)`, the `double` next below `1`: the four corners
of cell `(0, 0)`, entries `0`, `1`, `7`, `8`, point towards the centre of the cell; the
other gradients are zero. -/
def edgeGrid : Grid := fun k =>
  if k.val = 0 then ⟨1 - 1 / 2 ^ 53, 1 - 1 / 2 ^ 53⟩
  else if k.val = 1 then ⟨-(1 - 1 / 2 ^ 53), 1 - 1 / 2 ^ 53⟩
  else if k.val = 7 then ⟨1 - 1 / 2 ^ 53, -(1 - 1 / 2 ^ 53)⟩
  else if k.val = 8 then ⟨-(1 - 1 / 2 ^ 53), -(1 - 1 / 2 ^ 53)⟩
  else ⟨0, 0⟩

/-- The grid `g` with every gradient vector negated. -/
def negGrid (g : Grid) : Grid := fun k => ⟨-(g k).x, -(g k).y⟩

/-- A small random source for concrete runs: the state is a counter started at the
integer part of the seed, and each draw returns `(state mod 16) / 8 - 1`, a number in
`[-1, 1)`, before incrementing the counter. -/
def counterSource : RandomSource Nat :=
  { start := fun seed => Int.toNat ⌊seed⌋
    draw := fun n => (((n % 16 : Nat) : ℚ) / 8 - 1, n + 1) }

/-! ## Cell indices and fractional offsets -/

theorem cellIndex_div (x : Nat) : cellIndex ((x : ℚ) / 100) = x / 100 := by
  unfold cellIndex
  have h := Rat.floor_intCast_div_natCast (x : ℤ) 100
  simp only [Int.cast_natCast, Nat.cast_ofNat] at h
  rw [h]
  omega

theorem Grid.at?_lt (g : Grid) {k : Nat} (h : k < SW * SH) : g.at? k = some (g ⟨k, h⟩) := by
  simp [Grid.at?, h]

/-- Fractional offset of a pixel coordinate, in terms of the remainder. -/
theorem offset_eq (x : Nat) : offset x = ((x % 100 : Nat) : ℚ) / 100 := by
  unfold offset
  rw [cellIndex_div]
  have h : (x : ℚ) = 100 * ((x / 100 : Nat) : ℚ) + ((x % 100 : Nat) : ℚ) := by
    have h0 : x = 100 * (x / 100) + x % 100 := (Nat.div_add_mod x 100).symm
    exact_mod_cast h0
  linarith

theorem offset_nonneg (x : Nat) : 0 ≤ offset x := by
  rw [offset_eq]
  positivity

theorem offset_lt_one (x : Nat) : offset x < 1 := by
  rw [offset_eq, div_lt_one (by norm_num)]
  have h : x % 100 < 100 := Nat.mod_lt _ (by norm_num)
  exact_mod_cast h

/-- Inside the image the four lookups succeed and `noiseAt` is the blend of the
four gradients found. -/
theorem noiseAt_inside (g : Grid) (x y : Nat) (hx : x < WIDTH) (hy : y < HEIGHT) :
    ∃ g00 g10 g01 g11 : Vector2d,
      g.at? (y / 100 * SW + x / 100) = some g00 ∧
      g.at? (y / 100 * SW + x / 100 + 1) = some g10 ∧
      g.at? ((y / 100 + 1) * SW + x / 100) = some g01 ∧
      g.at? ((y / 100 + 1) * SW + x / 100 + 1) = some g11 ∧
      noiseAt g x y = some (blend g00 g10 g01 g11 (offset x) (offset y)) := by
  unfold WIDTH at hx
  unfold HEIGHT at hy
  have h00 : y / 100 * SW + x / 100 < SW * SH := by unfold SW SH; omega
  have h10 : y / 100 * SW + x / 100 + 1 < SW * SH := by unfold SW SH; omega
  have h01 : (y / 100 + 1) * SW + x / 100 < SW * SH := by unfold SW SH; omega
  have h11 : (y / 100 + 1) * SW + x / 100 + 1 < SW * SH := by unfold SW SH; omega
  refine ⟨g ⟨_, h00⟩, g ⟨_, h10⟩, g ⟨_, h01⟩, g ⟨_, h11⟩,
    g.at?_lt h00, g.at?_lt h10, g.at?_lt h01, g.at?_lt h11, ?_⟩
  unfold noiseAt offset
  simp only [cellIndex_div, g.at?_lt h00, g.at?_lt h10, g.at?_lt h01, g.at?_lt h11]
  rfl

/-! ## Bounds on the easing polynomial, the clamp and the blend -/

theorem mix_nonneg {t : ℚ} (h0 : 0 ≤ t) : 0 ≤ mix t := by
  have h : mix t = t ^ 3 * (6 * (t - 5 / 4) ^ 2 + 5 / 8) := by unfold mix; ring
  rw [h]
  positivity

theorem mix_pos {t : ℚ} (h0 : 0 < t) : 0 < mix t := by
  have h : mix t = t ^ 3 * (6 * (t - 5 / 4) ^ 2 + 5 / 8) := by unfold mix; ring
  rw [h]
  positivity

theorem one_sub_mix (t : ℚ) : 1 - mix t = (1 - t) ^ 3 * (6 * t ^ 2 + 3 * t + 1) := by
  unfold mix; ring

theorem mix_le_one {t : ℚ} (h0 : 0 ≤ t) (h1 : t ≤ 1) : mix t ≤ 1 := by
  have h := one_sub_mix t
  have h2 : 0 ≤ (1 - t) ^ 3 * (6 * t ^ 2 + 3 * t + 1) := by
    have : 0 ≤ 1 - t := by linarith
    positivity
  linarith

theorem mix_lt_one {t : ℚ} (h0 : 0 ≤ t) (h1 : t < 1) : mix t < 1 := by
  have h := one_sub_mix t
  have h2 : 0 < (1 - t) ^ 3 * (6 * t ^ 2 + 3 * t + 1) := by
    have : 0 < 1 - t := by linarith
    positivity
  linarith

theorem clamp_ge (v : ℚ) : -1 ≤ clamp v := by
  unfold clamp
  split_ifs <;> linarith

theorem clamp_le (v : ℚ) : clamp v ≤ 1 := by
  unfold clamp
  split_ifs <;> linarith

theorem clamp_lt_one {v : ℚ} (h : v < 1) : clamp v < 1 := by
  unfold clamp
  split_ifs <;> linarith

theorem clamp_gt_neg_one {v : ℚ} (h : -1 < v) : -1 < clamp v := by
  unfold clamp
  split_ifs <;> linarith

/-- The blend written as a weighted sum of the four clamped corner products. -/
theorem blend_expand (g00 g10 g01 g11 : Vector2d) (u v : ℚ) :
    blend g00 g10 g01 g11 u v =
      clamp (dotProduct g00 ⟨u, v⟩) * ((1 - mix u) * (1 - mix v)) +
      clamp (dotProduct g10 ⟨u - 1, v⟩) * (mix u * (1 - mix v)) +
      clamp (dotProduct g01 ⟨u, v - 1⟩) * ((1 - mix u) * mix v) +
      clamp (dotProduct g11 ⟨u - 1, v - 1⟩) * (mix u * mix v) := by
  unfold blend
  ring

/-- A weighted mean of four numbers in `[-1, 1]` is at most `1`. -/
theorem wsum_le {a b c d p q : ℚ} (ha : a ≤ 1) (hb : b ≤ 1) (hc : c ≤ 1) (hd : d ≤ 1)
    (hp0 : 0 ≤ p) (hp1 : p ≤ 1) (hq0 : 0 ≤ q) (hq1 : q ≤ 1) :
    a * ((1 - p) * (1 - q)) + b * (p * (1 - q)) + c * ((1 - p) * q) + d * (p * q) ≤ 1 := by
  have e : a * ((1 - p) * (1 - q)) + b * (p * (1 - q)) + c * ((1 - p) * q) + d * (p * q)
      = 1 - ((1 - a) * ((1 - p) * (1 - q)) + (1 - b) * (p * (1 - q))
        + (1 - c) * ((1 - p) * q) + (1 - d) * (p * q)) := by ring
  rw [e]
  have h1 : 0 ≤ 1 - a := by linarith
  have h2 : 0 ≤ 1 - b := by linarith
  have h3 : 0 ≤ 1 - c := by linarith
  have h4 : 0 ≤ 1 - d := by linarith
  have h5 : 0 ≤ 1 - p := by linarith
  have h6 : 0 ≤ 1 - q := by linarith
  have : 0 ≤ (1 - a) * ((1 - p) * (1 - q)) + (1 - b) * (p * (1 - q))
        + (1 - c) * ((1 - p) * q) + (1 - d) * (p * q) := by positivity
  linarith

theorem wsum_ge {a b c d p q : ℚ} (ha : -1 ≤ a) (hb : -1 ≤ b) (hc : -1 ≤ c) (hd : -1 ≤ d)
    (hp0 : 0 ≤ p) (hp1 : p ≤ 1) (hq0 : 0 ≤ q) (hq1 : q ≤ 1) :
    -1 ≤ a * ((1 - p) * (1 - q)) + b * (p * (1 - q)) + c * ((1 - p) * q) + d * (p * q) := by
  have h := wsum_le (a := -a) (b := -b) (c := -c) (d := -d) (by linarith) (by linarith)
    (by linarith) (by linarith) hp0 hp1 hq0 hq1
  linarith

theorem blend_le (g00 g10 g01 g11 : Vector2d) {u v : ℚ}
    (hu0 : 0 ≤ u) (hu1 : u ≤ 1) (hv0 : 0 ≤ v) (hv1 : v ≤ 1) :
    blend g00 g10 g01 g11 u v ≤ 1 := by
  rw [blend_expand]
  exact wsum_le (clamp_le _) (clamp_le _) (clamp_le _) (clamp_le _)
    (mix_nonneg hu0) (mix_le_one hu0 hu1) (mix_nonneg hv0) (mix_le_one hv0 hv1)

theorem blend_ge (g00 g10 g01 g11 : Vector2d) {u v : ℚ}
    (hu0 : 0 ≤ u) (hu1 : u ≤ 1) (hv0 : 0 ≤ v) (hv1 : v ≤ 1) :
    -1 ≤ blend g00 g10 g01 g11 u v := by
  rw [blend_expand]
  exact wsum_ge (clamp_ge _) (clamp_ge _) (clamp_ge _) (clamp_ge _)
    (mix_nonneg hu0) (mix_le_one hu0 hu1) (mix_nonneg hv0) (mix_le_one hv0 hv1)

theorem Grid.at?_some (g : Grid) {k : Nat} {w : Vector2d} (h : g.at? k = some w) :
    ∃ n : Fin (SW * SH), g n = w := by
  unfold Grid.at? at h
  split_ifs at h with hk
  exact ⟨⟨k, hk⟩, Option.some.inj h⟩

/-- The weighted mean stays below `1` when the first corner does and carries weight. -/
theorem wsum_lt_first {a b c d p q : ℚ} (ha : a < 1) (hb : b ≤ 1) (hc : c ≤ 1) (hd : d ≤ 1)
    (hp0 : 0 ≤ p) (hp1 : p < 1) (hq0 : 0 ≤ q) (hq1 : q < 1) :
    a * ((1 - p) * (1 - q)) + b * (p * (1 - q)) + c * ((1 - p) * q) + d * (p * q) < 1 := by
  have e : a * ((1 - p) * (1 - q)) + b * (p * (1 - q)) + c * ((1 - p) * q) + d * (p * q)
      = 1 - ((1 - a) * ((1 - p) * (1 - q)) + (1 - b) * (p * (1 - q))
        + (1 - c) * ((1 - p) * q) + (1 - d) * (p * q)) := by ring
  rw [e]
  have h1 : 0 < 1 - a := by linarith
  have h2 : 0 ≤ 1 - b := by linarith
  have h3 : 0 ≤ 1 - c := by linarith
  have h4 : 0 ≤ 1 - d := by linarith
  have h5 : 0 < 1 - p := by linarith
  have h6 : 0 < 1 - q := by linarith
  have : 0 < (1 - a) * ((1 - p) * (1 - q)) + (1 - b) * (p * (1 - q))
        + (1 - c) * ((1 - p) * q) + (1 - d) * (p * q) := by positivity
  linarith

/-- The weighted mean stays below `1` when the last corner does and carries weight. -/
theorem wsum_lt_last {a b c d p q : ℚ} (ha : a ≤ 1) (hb : b ≤ 1) (hc : c ≤ 1) (hd : d < 1)
    (hp0 : 0 < p) (hp1 : p ≤ 1) (hq0 : 0 < q) (hq1 : q ≤ 1) :
    a * ((1 - p) * (1 - q)) + b * (p * (1 - q)) + c * ((1 - p) * q) + d * (p * q) < 1 := by
  have e : a * ((1 - p) * (1 - q)) + b * (p * (1 - q)) + c * ((1 - p) * q) + d * (p * q)
      = 1 - ((1 - d) * (p * q) + (1 - a) * ((1 - p) * (1 - q)) + (1 - b) * (p * (1 - q))
        + (1 - c) * ((1 - p) * q)) := by ring
  rw [e]
  have h1 : 0 ≤ 1 - a := by linarith
  have h2 : 0 ≤ 1 - b := by linarith
  have h3 : 0 ≤ 1 - c := by linarith
  have h4 : 0 < 1 - d := by linarith
  have h5 : 0 ≤ 1 - p := by linarith
  have h6 : 0 ≤ 1 - q := by linarith
  have : 0 < (1 - d) * (p * q) + (1 - a) * ((1 - p) * (1 - q)) + (1 - b) * (p * (1 - q))
        + (1 - c) * ((1 - p) * q) := by positivity
  linarith

/-- In exact arithmetic: with gradient components strictly inside `(-1, 1)` and offsets
in `[0, 1)` the blend stays strictly below `1`. -/
theorem blend_lt_one (g00 g10 g01 g11 : Vector2d) {u v : ℚ}
    (h00x : g00.x < 1) (h00y : g00.y < 1) (h11x : -1 < g11.x) (h11y : -1 < g11.y)
    (hu0 : 0 ≤ u) (hu1 : u < 1) (hv0 : 0 ≤ v) (hv1 : v < 1) :
    blend g00 g10 g01 g11 u v < 1 := by
  rw [blend_expand]
  by_cases huv : u + v < 1
  · have hd : dotProduct g00 ⟨u, v⟩ < 1 := by
      have e : 1 - dotProduct g00 ⟨u, v⟩ = (1 - u - v) + (1 - g00.x) * u + (1 - g00.y) * v := by
        unfold dotProduct; ring
      have h1 : 0 ≤ (1 - g00.x) * u := mul_nonneg (by linarith) hu0
      have h2 : 0 ≤ (1 - g00.y) * v := mul_nonneg (by linarith) hv0
      linarith
    exact wsum_lt_first (clamp_lt_one hd) (clamp_le _) (clamp_le _) (clamp_le _)
      (mix_nonneg hu0) (mix_lt_one hu0 hu1) (mix_nonneg hv0) (mix_lt_one hv0 hv1)
  · have hu : 0 < u := by linarith
    have hv : 0 < v := by linarith
    have hd : dotProduct g11 ⟨u - 1, v - 1⟩ < 1 := by
      have e : 1 - dotProduct g11 ⟨u - 1, v - 1⟩
          = (u + v - 1) + (1 + g11.x) * (1 - u) + (1 + g11.y) * (1 - v) := by
        unfold dotProduct; ring
      have h1 : 0 < (1 + g11.x) * (1 - u) := mul_pos (by linarith) (by linarith)
      have h2 : 0 < (1 + g11.y) * (1 - v) := mul_pos (by linarith) (by linarith)
      linarith
    exact wsum_lt_last (clamp_le _) (clamp_le _) (clamp_le _) (clamp_lt_one hd)
      (mix_pos hu) (mix_le_one hu0 hu1.le) (mix_pos hv) (mix_le_one hv0 hv1.le)

/-- In exact arithmetic: with gradient components strictly inside `(-1, 1)` and offsets
in `[0, 1)` the blend stays strictly above `-1`. -/
theorem neg_one_lt_blend (g00 g10 g01 g11 : Vector2d) {u v : ℚ}
    (h00x : -1 < g00.x) (h00y : -1 < g00.y) (h11x : g11.x < 1) (h11y : g11.y < 1)
    (hu0 : 0 ≤ u) (hu1 : u < 1) (hv0 : 0 ≤ v) (hv1 : v < 1) :
    -1 < blend g00 g10 g01 g11 u v := by
  rw [blend_expand]
  by_cases huv : u + v < 1
  · have hd : -1 < dotProduct g00 ⟨u, v⟩ := by
      have e : 1 + dotProduct g00 ⟨u, v⟩ = (1 - u - v) + (1 + g00.x) * u + (1 + g00.y) * v := by
        unfold dotProduct; ring
      have h1 : 0 ≤ (1 + g00.x) * u := mul_nonneg (by linarith) hu0
      have h2 : 0 ≤ (1 + g00.y) * v := mul_nonneg (by linarith) hv0
      linarith
    have h := wsum_lt_first (a := -clamp (dotProduct g00 ⟨u, v⟩))
      (b := -clamp (dotProduct g10 ⟨u - 1, v⟩)) (c := -clamp (dotProduct g01 ⟨u, v - 1⟩))
      (d := -clamp (dotProduct g11 ⟨u - 1, v - 1⟩))
      (by linarith [clamp_gt_neg_one hd]) (by linarith [clamp_ge (dotProduct g10 ⟨u - 1, v⟩)])
      (by linarith [clamp_ge (dotProduct g01 ⟨u, v - 1⟩)])
      (by linarith [clamp_ge (dotProduct g11 ⟨u - 1, v - 1⟩)])
      (mix_nonneg hu0) (mix_lt_one hu0 hu1) (mix_nonneg hv0) (mix_lt_one hv0 hv1)
    linarith
  · have hu : 0 < u := by linarith
    have hv : 0 < v := by linarith
    have hd : -1 < dotProduct g11 ⟨u - 1, v - 1⟩ := by
      have e : 1 + dotProduct g11 ⟨u - 1, v - 1⟩
          = (u + v - 1) + (1 - g11.x) * (1 - u) + (1 - g11.y) * (1 - v) := by
        unfold dotProduct; ring
      have h1 : 0 < (1 - g11.x) * (1 - u) := mul_pos (by linarith) (by linarith)
      have h2 : 0 < (1 - g11.y) * (1 - v) := mul_pos (by linarith) (by linarith)
      linarith
    have h := wsum_lt_last (a := -clamp (dotProduct g00 ⟨u, v⟩))
      (b := -clamp (dotProduct g10 ⟨u - 1, v⟩)) (c := -clamp (dotProduct g01 ⟨u, v - 1⟩))
      (d := -clamp (dotProduct g11 ⟨u - 1, v - 1⟩))
      (by linarith [clamp_ge (dotProduct g00 ⟨u, v⟩)])
      (by linarith [clamp_ge (dotProduct g10 ⟨u - 1, v⟩)])
      (by linarith [clamp_ge (dotProduct g01 ⟨u, v - 1⟩)])
      (by linarith [clamp_gt_neg_one hd])
      (mix_pos hu) (mix_le_one hu0 hu1.le) (mix_pos hv) (mix_le_one hv0 hv1.le)
    linarith

/-- Inside the byte range the narrowing is the integer part, without wraparound. -/
theorem toUint8_of_range {q : ℚ} (h0 : 0 ≤ q) (h1 : q < 256) :
    toUint8 q = Int.toNat ⌊q⌋ ∧ Int.toNat ⌊q⌋ ≤ 255 ∧
    ((Int.toNat ⌊q⌋ : Nat) : ℚ) ≤ q ∧ q < ((Int.toNat ⌊q⌋ : Nat) : ℚ) + 1 := by
  have hf0 : 0 ≤ ⌊q⌋ := Int.floor_nonneg.mpr h0
  have hf1 : ⌊q⌋ < 256 := by
    rw [Int.floor_lt]
    exact_mod_cast h1
  have hc : ((Int.toNat ⌊q⌋ : Nat) : ℚ) = ((⌊q⌋ : ℤ) : ℚ) := by
    rw [← Int.cast_natCast, Int.toNat_of_nonneg hf0]
  refine ⟨?_, by omega, ?_, ?_⟩
  · unfold toUint8 truncQ
    rw [if_pos h0]
    congr 1
    omega
  · rw [hc]
    exact Int.floor_le q
  · rw [hc]
    exact Int.lt_floor_add_one q

/-- The computation of `noiseAt` with cell indices and offsets written with `/` and `%`. -/
theorem noiseAt_eq (g : Grid) (x y : Nat) :
    noiseAt g x y =
      (g.at? (y / 100 * SW + x / 100)).bind fun g00 =>
      (g.at? (y / 100 * SW + x / 100 + 1)).bind fun g10 =>
      (g.at? ((y / 100 + 1) * SW + x / 100)).bind fun g01 =>
      (g.at? ((y / 100 + 1) * SW + x / 100 + 1)).bind fun g11 =>
      some (blend g00 g10 g01 g11 (((x % 100 : Nat) : ℚ) / 100) (((y % 100 : Nat) : ℚ) / 100)) := by
  have hx := offset_eq x
  have hy := offset_eq y
  unfold offset at hx hy
  rw [cellIndex_div] at hx hy
  unfold noiseAt
  simp only [cellIndex_div, hx, hy]
  rfl

/-! ## The loops of makePixels -/

/-- The diagnostic of lines 98-99 never fires: the state is left as it is. -/
theorem diagnose_offset (s : Raster) (x : Nat) : diagnose s (offset x) = s := by
  have h : mix (offset x) ≤ 1 := mix_le_one (offset_nonneg x) (offset_lt_one x).le
  unfold diagnose
  rw [if_neg (not_lt.mpr h)]

theorem pixelVal_inside (g : Grid) (x y : Nat) (hx : x < WIDTH) (hy : y < HEIGHT) :
    ∃ nxy : ℚ, noiseAt g x y = some nxy ∧ pixelVal g x y = some (toUint8 (scaled nxy)) := by
  obtain ⟨g00, g10, g01, g11, _, _, _, _, hn⟩ := noiseAt_inside g x y hx hy
  exact ⟨_, hn, by unfold pixelVal; rw [hn, Option.map_some']⟩

theorem pixelVal_valOf (g : Grid) (x y : Nat) (hx : x < WIDTH) (hy : y < HEIGHT) :
    pixelVal g x y = some (valOf g x y) := by
  obtain ⟨nxy, _, hp⟩ := pixelVal_inside g x y hx hy
  unfold valOf
  rw [hp, Option.getD_some]

/-- One pass through the loop body moves the state from `p` pixels to `p + 1`. -/
theorem pixelStep_rasterUpTo (g : Grid) (x y : Nat) (hx : x < WIDTH) (hy : y < HEIGHT) :
    pixelStep g y (rasterUpTo g (y * WIDTH + x)) x = some (rasterUpTo g (y * WIDTH + x + 1)) := by
  unfold pixelStep
  rw [pixelVal_valOf g x y hx hy, Option.map_some', diagnose_offset]
  congr 1
  have hx6 : x < 600 := hx
  have e : 4 * (y * WIDTH + x + 1) = 4 * (y * WIDTH + x) + 3 + 1 := by ring
  have hm : (y * WIDTH + x) % WIDTH = x := by unfold WIDTH; omega
  have hd : (y * WIDTH + x) / WIDTH = y := by unfold WIDTH; omega
  have d0 : 4 * (y * WIDTH + x) / 4 = y * WIDTH + x := by omega
  have d1 : (4 * (y * WIDTH + x) + 1) / 4 = y * WIDTH + x := by omega
  have d2 : (4 * (y * WIDTH + x) + 2) / 4 = y * WIDTH + x := by omega
  have d3 : (4 * (y * WIDTH + x) + 3) / 4 = y * WIDTH + x := by omega
  have m0 : 4 * (y * WIDTH + x) % 4 = 0 := by omega
  have m1 : (4 * (y * WIDTH + x) + 1) % 4 = 1 := by omega
  have m2 : (4 * (y * WIDTH + x) + 2) % 4 = 2 := by omega
  have m3 : (4 * (y * WIDTH + x) + 3) % 4 = 3 := by omega
  unfold rasterUpTo writePixel
  rw [e, List.range_succ, List.range_succ, List.range_succ, List.range_succ]
  simp only [List.map_append, List.map_cons, List.map_nil, List.append_assoc,
    List.cons_append, List.nil_append, storeAt, d0, d1, d2, d3, m0, m1, m2, m3, hm, hd]

/-- The inner loop, run for the first `n` columns of row `y`. -/
theorem row_loop (g : Grid) (y : Nat) (hy : y < HEIGHT) (n : Nat) (hn : n ≤ WIDTH) :
    (List.range n).foldlM (pixelStep g y) (rasterUpTo g (y * WIDTH))
      = some (rasterUpTo g (y * WIDTH + n)) := by
  induction n with
  | zero => simp only [List.range_zero, List.foldlM_nil, Nat.add_zero]; rfl
  | succ n ih =>
    rw [List.range_succ, List.foldlM_append, ih (by omega)]
    simp only [Option.bind_eq_bind, Option.some_bind, List.foldlM_cons, List.foldlM_nil,
      pixelStep_rasterUpTo g n y (by omega) hy, Nat.add_assoc, Option.pure_def]

theorem rowStep_rasterUpTo (g : Grid) (y : Nat) (hy : y < HEIGHT) :
    rowStep g (rasterUpTo g (y * WIDTH)) y = some (rasterUpTo g ((y + 1) * WIDTH)) := by
  unfold rowStep
  rw [row_loop g y hy WIDTH le_rfl, Nat.succ_mul]

/-- The outer loop, run for the first `m` rows. -/
theorem rows_loop (g : Grid) (m : Nat) (hm : m ≤ HEIGHT) :
    (List.range m).foldlM (rowStep g) (rasterUpTo g 0) = some (rasterUpTo g (m * WIDTH)) := by
  induction m with
  | zero => simp only [List.range_zero, List.foldlM_nil, Nat.zero_mul]; rfl
  | succ m ih =>
    rw [List.range_succ, List.foldlM_append, ih (by omega)]
    simp only [Option.bind_eq_bind, Option.some_bind, List.foldlM_cons, List.foldlM_nil,
      rowStep_rasterUpTo g m (by omega), Option.pure_def]

theorem makePixels_eq (g : Grid) : makePixels g = some (rasterUpTo g (HEIGHT * WIDTH)) :=
  rows_loop g HEIGHT le_rfl

theorem rasterUpTo_log_get (g : Grid) (p k : Nat) (hk : k < 4 * p) :
    (rasterUpTo g p).log[k]? = some (storeAt g k) := by
  unfold rasterUpTo
  simp only [List.getElem?_map, List.getElem?_range hk, Option.map_some']

theorem rasterUpTo_offsets (g : Grid) (p : Nat) :
    (rasterUpTo g p).log.map Prod.fst = List.range (4 * p) := by
  unfold rasterUpTo
  rw [List.map_map]
  have h : Prod.fst ∘ storeAt g = id := by
    funext k
    rfl
  rw [h, List.map_id]

/-- The four stores of pixel `(x, y)` in the closed form of the log. -/
theorem storeAt_pixel (g : Grid) (x y : Nat) (hx : x < WIDTH) :
    storeAt g (4 * toD x y) = (4 * toD x y, valOf g x y) ∧
    storeAt g (4 * toD x y + 1) = (4 * toD x y + 1, 0) ∧
    storeAt g (4 * toD x y + 2) = (4 * toD x y + 2, valOf g x y) ∧
    storeAt g (4 * toD x y + 3) = (4 * toD x y + 3, 255) := by
  have hx6 : x < 600 := hx
  have hm : toD x y % WIDTH = x := by unfold toD WIDTH; omega
  have hd : toD x y / WIDTH = y := by unfold toD WIDTH; omega
  have d0 : 4 * toD x y / 4 = toD x y := by omega
  have d2 : (4 * toD x y + 2) / 4 = toD x y := by omega
  have m0 : 4 * toD x y % 4 = 0 := by omega
  have m1 : (4 * toD x y + 1) % 4 = 1 := by omega
  have m2 : (4 * toD x y + 2) % 4 = 2 := by omega
  have m3 : (4 * toD x y + 3) % 4 = 3 := by omega
  simp only [storeAt, d0, d2, m0, m1, m2, m3, hm, hd, and_self]

theorem toD_lt (x y : Nat) (hx : x < WIDTH) (hy : y < HEIGHT) : toD x y < HEIGHT * WIDTH := by
  have hx6 : x < 600 := hx
  have hy6 : y < 600 := hy
  unfold toD HEIGHT WIDTH
  omega

/-- Result of `makePixels`: it terminates normally, `tmp` ends at `4 * HEIGHT * WIDTH`,
store number `k` goes to offset `k`, and the four stores of pixel `(x, y)` are the
entries `4 * toD x y .. 4 * toD x y + 3` of the log. -/
theorem makePixels_stores (g : Grid) :
    ∃ s : Raster, makePixels g = some s ∧ s.err = [] ∧ s.tmp = 4 * (HEIGHT * WIDTH) ∧
      s.log.length = 4 * (HEIGHT * WIDTH) ∧
      s.log.map Prod.fst = List.range (4 * (HEIGHT * WIDTH)) ∧
      ∀ x y, x < WIDTH → y < HEIGHT → ∀ val, pixelVal g x y = some val →
        s.log[4 * toD x y]? = some (4 * toD x y, val) ∧
        s.log[4 * toD x y + 1]? = some (4 * toD x y + 1, 0) ∧
        s.log[4 * toD x y + 2]? = some (4 * toD x y + 2, val) ∧
        s.log[4 * toD x y + 3]? = some (4 * toD x y + 3, 255) := by
  refine ⟨_, makePixels_eq g, rfl, rfl, ?_, rasterUpTo_offsets g _, ?_⟩
  · have h := congrArg List.length (rasterUpTo_offsets g (HEIGHT * WIDTH))
    rw [List.length_map, List.length_range] at h
    exact h
  · intro x y hx hy val hv
    have hval : valOf g x y = val := by
      unfold valOf
      rw [hv, Option.getD_some]
    have hlt := toD_lt x y hx hy
    obtain ⟨e0, e1, e2, e3⟩ := storeAt_pixel g x y hx
    rw [hval] at e0 e2
    rw [rasterUpTo_log_get g _ _ (by omega), rasterUpTo_log_get g _ _ (by omega),
      rasterUpTo_log_get g _ _ (by omega), rasterUpTo_log_get g _ _ (by omega), e0, e1, e2, e3]
    exact ⟨rfl, rfl, rfl, rfl⟩

/-! ## Claims about the gradient lookup and the range of the noise value -/

/-- C1: for every pixel `(x, y)` of the 600x600 image the cell indices
`i = floor(x / 100)` and `j = floor(y / 100)` are at most `5 = SW - 2 = SH - 2`, the
column `i + 1` is at most `6`, the four flat indices `j*7+i`, `j*7+i+1`, `(j+1)*7+i`,
`(j+1)*7+i+1` are below `49`, and for every grid the four lookups succeed, so that the
out-of-bounds branch of the gradient lookup is never taken. -/
theorem C1_lookup_in_bounds (x y : Nat) (hx : x < WIDTH) (hy : y < HEIGHT) :
    cellIndex ((x : ℚ) / 100) ≤ 5 ∧ cellIndex ((y : ℚ) / 100) ≤ 5 ∧
    SW - 2 = 5 ∧ SH - 2 = 5 ∧ SW * SH = 49 ∧
    cellIndex ((x : ℚ) / 100) + 1 ≤ 6 ∧
    cellIndex ((y : ℚ) / 100) * 7 + cellIndex ((x : ℚ) / 100) < 49 ∧
    cellIndex ((y : ℚ) / 100) * 7 + cellIndex ((x : ℚ) / 100) + 1 < 49 ∧
    (cellIndex ((y : ℚ) / 100) + 1) * 7 + cellIndex ((x : ℚ) / 100) < 49 ∧
    (cellIndex ((y : ℚ) / 100) + 1) * 7 + cellIndex ((x : ℚ) / 100) + 1 < 49 ∧
    ∀ g : Grid,
      (g.at? (cellIndex ((y : ℚ) / 100) * SW + cellIndex ((x : ℚ) / 100))).isSome = true ∧
      (g.at? (cellIndex ((y : ℚ) / 100) * SW + cellIndex ((x : ℚ) / 100) + 1)).isSome = true ∧
      (g.at? ((cellIndex ((y : ℚ) / 100) + 1) * SW + cellIndex ((x : ℚ) / 100))).isSome = true ∧
      (g.at? ((cellIndex ((y : ℚ) / 100) + 1) * SW + cellIndex ((x : ℚ) / 100) + 1)).isSome
        = true ∧
      (noiseAt g x y).isSome = true := by
  have hx6 : x < 600 := hx
  have hy6 : y < 600 := hy
  rw [cellIndex_div, cellIndex_div]
  refine ⟨by omega, by omega, rfl, rfl, rfl, by omega, by omega, by omega, by omega, by omega, ?_⟩
  intro g
  obtain ⟨g00, g10, g01, g11, h00, h10, h01, h11, hn⟩ := noiseAt_inside g x y hx hy
  simp [h00, h10, h01, h11, hn]

/-- Instance of C1 at the last pixel `(599, 599)`. -/
theorem C1_lookup_in_bounds_witness :
    599 < WIDTH ∧ 599 < HEIGHT ∧ cellIndex (((599 : Nat) : ℚ) / 100) ≤ 5 ∧
    (noiseAt peakGrid 599 599).isSome = true :=
  ⟨by decide, by decide, (C1_lookup_in_bounds 599 599 (by decide) (by decide)).1,
    ((C1_lookup_in_bounds 599 599 (by decide) (by decide)).2.2.2.2.2.2.2.2.2.2 peakGrid).2.2.2.2⟩

/-- C3: for every gradient grid, whatever the magnitude of its vectors, and every
pixel `(x, y)` of the 600x600 image, the blended noise value `nxy` computed by
`makePixels` lies in `[-1, 1]`. -/
theorem C3_noise_in_unit_range (g : Grid) (x y : Nat) (hx : x < WIDTH) (hy : y < HEIGHT) :
    ∃ nxy : ℚ, noiseAt g x y = some nxy ∧ -1 ≤ nxy ∧ nxy ≤ 1 := by
  obtain ⟨g00, g10, g01, g11, _, _, _, _, hn⟩ := noiseAt_inside g x y hx hy
  exact ⟨_, hn,
    blend_ge g00 g10 g01 g11 (offset_nonneg x) (offset_lt_one x).le
      (offset_nonneg y) (offset_lt_one y).le,
    blend_le g00 g10 g01 g11 (offset_nonneg x) (offset_lt_one x).le
      (offset_nonneg y) (offset_lt_one y).le⟩

/-- Instance of C3 at `peakGrid`, pixel `(0, 50)`. -/
theorem C3_noise_in_unit_range_witness :
    0 < WIDTH ∧ 50 < HEIGHT ∧ ∃ nxy : ℚ, noiseAt peakGrid 0 50 = some nxy ∧ -1 ≤ nxy ∧ nxy ≤ 1 :=
  ⟨by decide, by decide, C3_noise_in_unit_range peakGrid 0 50 (by decide) (by decide)⟩

theorem noiseAt_peakGrid : noiseAt peakGrid 0 50 = some 1 := by
  rw [noiseAt_eq]
  norm_num [Grid.at?, SW, SH, peakGrid, blend, clamp, dotProduct, mix]

/-- C4: without a final clamp the value narrowed to a byte can leave the byte range:
for the grid `peakGrid` and pixel `(0, 50)` of the 600x600 image the blended value is
`nxy = 1`, so `nxy * 128 + 128 = 256`, which is not in `[0, 256)`. -/
theorem C4_value_leaves_byte_range :
    ∃ (g : Grid) (x y : Nat) (nxy : ℚ), x < WIDTH ∧ y < HEIGHT ∧ noiseAt g x y = some nxy ∧
      256 ≤ scaled nxy ∧ ¬ (0 ≤ scaled nxy ∧ scaled nxy < 256) := by
  refine ⟨peakGrid, 0, 50, 1, by decide, by decide, noiseAt_peakGrid, ?_, ?_⟩ <;>
    norm_num [scaled]

/-! ## Claims about the byte written and the layout of the buffer -/

theorem toUint8_eval {q : ℚ} (n : Nat) (h0 : (n : ℚ) ≤ q) (h1 : q < (n : ℚ) + 1)
    (hn : n < 256) : toUint8 q = n := by
  have hq : 0 ≤ q := le_trans (Nat.cast_nonneg n) h0
  have hf : ⌊q⌋ = (n : ℤ) := by
    rw [Int.floor_eq_iff]
    exact ⟨by exact_mod_cast h0, by exact_mod_cast h1⟩
  unfold toUint8 truncQ
  rw [if_pos hq, hf]
  omega

theorem noiseAt_halfGrid : noiseAt (constGrid ⟨0, 1 / 2⟩) 0 10 = some (1143 / 25000) := by
  rw [noiseAt_eq]
  norm_num [Grid.at?, SW, SH, constGrid, blend, clamp, dotProduct, mix]

theorem specIntensity_halfGrid : specIntensity (1143 / 25000) = 134 := by
  have hr : round ((1143 / 25000 : ℚ) * 128 + 128) = 134 := by
    rw [round_eq, Int.floor_eq_iff]
    norm_num
  unfold specIntensity
  rw [hr]
  rfl

/-- C5, counterexample: for the grid whose gradients are all `(0, 1/2)` and pixel
`(0, 10)` the noise value is `1143/25000`, so `nxy * 128 + 128 = 133.85216`; the byte
written is `133`, whereas rounding and clamping gives `134`. -/
theorem C5_counterexample :
    noiseAt (constGrid ⟨0, 1 / 2⟩) 0 10 = some (1143 / 25000) ∧
    pixelVal (constGrid ⟨0, 1 / 2⟩) 0 10 = some 133 ∧
    specIntensity (1143 / 25000) = 134 ∧
    ((133 : Nat) : ℤ) ≠ specIntensity (1143 / 25000) := by
  refine ⟨noiseAt_halfGrid, ?_, specIntensity_halfGrid, ?_⟩
  · unfold pixelVal
    rw [noiseAt_halfGrid, Option.map_some']
    congr 1
    exact toUint8_eval 133 (by norm_num [scaled]) (by norm_num [scaled]) (by norm_num)
  · rw [specIntensity_halfGrid]
    decide

/-- C6: for every gradient grid `makePixels` performs exactly
`WIDTH * HEIGHT * 4 = 1,440,000` byte stores, and for every pixel `(x, y)` the four bytes
stored by its iteration (stores number `4 * (y * WIDTH + x)` to `4 * (y * WIDTH + x) + 3`)
are `(val, 0, val, 255)`, where `val` is the intensity computed for `(x, y)`. -/
theorem C6_buffer_shape (g : Grid) :
    WIDTH * HEIGHT * 4 = 1440000 ∧
    ∃ s : Raster, makePixels g = some s ∧ s.log.length = WIDTH * HEIGHT * 4 ∧
      s.tmp = WIDTH * HEIGHT * 4 ∧
      ∀ x y, x < WIDTH → y < HEIGHT → ∃ val : Nat, pixelVal g x y = some val ∧
        (s.log.map Prod.snd)[4 * (y * WIDTH + x)]? = some val ∧
        (s.log.map Prod.snd)[4 * (y * WIDTH + x) + 1]? = some 0 ∧
        (s.log.map Prod.snd)[4 * (y * WIDTH + x) + 2]? = some val ∧
        (s.log.map Prod.snd)[4 * (y * WIDTH + x) + 3]? = some 255 := by
  obtain ⟨s, hs, _, ht, hl, _, hst⟩ := makePixels_stores g
  refine ⟨rfl, s, hs, hl, ht, ?_⟩
  intro x y hx hy
  obtain ⟨e0, e1, e2, e3⟩ := hst x y hx hy _ (pixelVal_valOf g x y hx hy)
  unfold toD at e0 e1 e2 e3
  refine ⟨_, pixelVal_valOf g x y hx hy, ?_, ?_, ?_, ?_⟩
  · rw [List.getElem?_map, e0, Option.map_some']
  · rw [List.getElem?_map, e1, Option.map_some']
  · rw [List.getElem?_map, e2, Option.map_some']
  · rw [List.getElem?_map, e3, Option.map_some']

/-- Instance of C6 at the zero grid and pixel `(3, 2)`. -/
theorem C6_buffer_shape_witness :
    ∃ (s : Raster) (val : Nat), makePixels zeroGrid = some s ∧ s.log.length = 1440000 ∧
      pixelVal zeroGrid 3 2 = some val ∧
      (s.log.map Prod.snd)[4 * (2 * WIDTH + 3)]? = some val ∧
      (s.log.map Prod.snd)[4 * (2 * WIDTH + 3) + 1]? = some 0 ∧
      (s.log.map Prod.snd)[4 * (2 * WIDTH + 3) + 2]? = some val ∧
      (s.log.map Prod.snd)[4 * (2 * WIDTH + 3) + 3]? = some 255 := by
  obtain ⟨hN, s, hs, hl, _, hp⟩ := C6_buffer_shape zeroGrid
  obtain ⟨val, hv, b0, b1, b2, b3⟩ := hp 3 2 (by decide) (by decide)
  exact ⟨s, val, hs, hl.trans hN, hv, b0, b1, b2, b3⟩

/-- C7: the buffer is row-major: store number `k` of `makePixels` goes to byte offset
`k`, so every offset below `WIDTH * HEIGHT * 4` is written exactly once; the four bytes
computed for pixel `(x, y)` are stored at offsets `4 * toD x y .. 4 * toD x y + 3`; and
`(x, y) ↦ toD x y = y * WIDTH + x` is a bijection from the pixels onto
`[0, WIDTH * HEIGHT)`. -/
theorem C7_row_major_layout (g : Grid) :
    (∃ s : Raster, makePixels g = some s ∧
      s.log.map Prod.fst = List.range (WIDTH * HEIGHT * 4) ∧
      (∀ k, k < WIDTH * HEIGHT * 4 → (s.log.map Prod.fst).count k = 1) ∧
      ∀ x y, x < WIDTH → y < HEIGHT → ∃ val : Nat, pixelVal g x y = some val ∧
        (4 * toD x y, val) ∈ s.log ∧ (4 * toD x y + 1, 0) ∈ s.log ∧
        (4 * toD x y + 2, val) ∈ s.log ∧ (4 * toD x y + 3, 255) ∈ s.log) ∧
    (∀ x y, toD x y = y * WIDTH + x) ∧
    (∀ x y, x < WIDTH → y < HEIGHT → toD x y < WIDTH * HEIGHT) ∧
    (∀ x y x' y', x < WIDTH → y < HEIGHT → x' < WIDTH → y' < HEIGHT →
      toD x y = toD x' y' → x = x' ∧ y = y') ∧
    (∀ p, p < WIDTH * HEIGHT → ∃ x y, x < WIDTH ∧ y < HEIGHT ∧ toD x y = p) := by
  obtain ⟨s, hs, _, _, _, ho, hst⟩ := makePixels_stores g
  refine ⟨⟨s, hs, ho, ?_, ?_⟩, fun _ _ => rfl, ?_, ?_, ?_⟩
  · intro k hk
    rw [ho]
    exact List.count_eq_one_of_mem (List.nodup_range _) (List.mem_range.mpr hk)
  · intro x y hx hy
    obtain ⟨e0, e1, e2, e3⟩ := hst x y hx hy _ (pixelVal_valOf g x y hx hy)
    exact ⟨_, pixelVal_valOf g x y hx hy, List.getElem?_mem e0, List.getElem?_mem e1,
      List.getElem?_mem e2, List.getElem?_mem e3⟩
  · intro x y hx hy
    have hx6 : x < 600 := hx
    have hy6 : y < 600 := hy
    unfold toD WIDTH HEIGHT
    omega
  · intro x y x' y' hx hy hx' hy' h
    have hx6 : x < 600 := hx
    have hx6' : x' < 600 := hx'
    unfold toD WIDTH at h
    omega
  · intro p hp
    have hp6 : p < 600 * 600 := hp
    refine ⟨p % 600, p / 600, ?_, ?_, ?_⟩
    · show p % 600 < 600
      omega
    · show p / 600 < 600
      omega
    · unfold toD WIDTH
      omega

/-- Instance of C7 at the zero grid: byte offset `7203` is written exactly once, and
pixel index `1803` is `toD 3 3`. -/
theorem C7_row_major_layout_witness :
    (∃ s : Raster, makePixels zeroGrid = some s ∧ (s.log.map Prod.fst).count 7203 = 1) ∧
    toD 3 3 = 1803 ∧ ∃ x y, x < WIDTH ∧ y < HEIGHT ∧ toD x y = 1803 := by
  obtain ⟨⟨s, hs, _, hc, _⟩, _, _, _, hsurj⟩ := C7_row_major_layout zeroGrid
  exact ⟨⟨s, hs, hc 7203 (by decide)⟩, by decide, hsurj 1803 (by decide)⟩

theorem blend_origin (g00 g10 g01 g11 : Vector2d) : blend g00 g10 g01 g11 0 0 = 0 := by
  norm_num [blend, mix, dotProduct, clamp]

theorem toUint8_mid : toUint8 (scaled 0) = 128 :=
  toUint8_eval 128 (by norm_num [scaled]) (by norm_num [scaled]) (by norm_num)

/-- C8: for every gradient grid, a pixel `(x, y)` of the image with `x` and `y` both
multiples of `100` lies in cell `(x / 100, y / 100)` with offsets `u = v = 0`, its
blended value is exactly `0` and its four bytes are `(128, 0, 128, 255)`. -/
theorem C8_lattice_pixels (g : Grid) (x y : Nat) (hx : x < WIDTH) (hy : y < HEIGHT)
    (hxm : x % 100 = 0) (hym : y % 100 = 0) :
    cellIndex ((x : ℚ) / 100) = x / 100 ∧ cellIndex ((y : ℚ) / 100) = y / 100 ∧
    offset x = 0 ∧ offset y = 0 ∧
    noiseAt g x y = some 0 ∧ pixelVal g x y = some 128 ∧
    ∃ s : Raster, makePixels g = some s ∧
      s.log[4 * toD x y]? = some (4 * toD x y, 128) ∧
      s.log[4 * toD x y + 1]? = some (4 * toD x y + 1, 0) ∧
      s.log[4 * toD x y + 2]? = some (4 * toD x y + 2, 128) ∧
      s.log[4 * toD x y + 3]? = some (4 * toD x y + 3, 255) := by
  have hu : offset x = 0 := by
    rw [offset_eq, hxm]; norm_num
  have hv : offset y = 0 := by
    rw [offset_eq, hym]; norm_num
  obtain ⟨g00, g10, g01, g11, _, _, _, _, hn⟩ := noiseAt_inside g x y hx hy
  rw [hu, hv, blend_origin] at hn
  have hp : pixelVal g x y = some 128 := by
    unfold pixelVal
    rw [hn, Option.map_some', toUint8_mid]
  obtain ⟨s, hs, _, _, _, _, hst⟩ := makePixels_stores g
  exact ⟨cellIndex_div x, cellIndex_div y, hu, hv, hn, hp, s, hs, hst x y hx hy 128 hp⟩

/-- Instance of C8 at pixel `(0, 0)`, which lies in cell `(0, 0)`. -/
theorem C8_lattice_pixels_witness :
    0 < WIDTH ∧ 0 < HEIGHT ∧ 0 % 100 = 0 ∧
    cellIndex (((0 : Nat) : ℚ) / 100) = 0 ∧
    (∀ g : Grid, noiseAt g 0 0 = some 0 ∧ pixelVal g 0 0 = some 128 ∧
      ∃ s : Raster, makePixels g = some s ∧
        s.log[0]? = some (0, 128) ∧ s.log[1]? = some (1, 0) ∧
        s.log[2]? = some (2, 128) ∧ s.log[3]? = some (3, 255)) :=
  ⟨by decide, by decide, rfl,
    (C8_lattice_pixels zeroGrid 0 0 (by decide) (by decide) rfl rfl).1,
    fun g => (C8_lattice_pixels g 0 0 (by decide) (by decide) rfl rfl).2.2.2.2⟩

theorem blend_zero_gradients (u v : ℚ) : blend ⟨0, 0⟩ ⟨0, 0⟩ ⟨0, 0⟩ ⟨0, 0⟩ u v = 0 := by
  norm_num [blend, dotProduct, clamp]

/-- C9: for the gradient grid whose 49 vectors are all zero, every pixel `(x, y)` of the
600x600 output has noise value `0` and bytes exactly `(128, 0, 128, 255)`. -/
theorem C9_zero_grid (x y : Nat) (hx : x < WIDTH) (hy : y < HEIGHT) :
    noiseAt zeroGrid x y = some 0 ∧ pixelVal zeroGrid x y = some 128 ∧
    ∃ s : Raster, makePixels zeroGrid = some s ∧
      s.log[4 * toD x y]? = some (4 * toD x y, 128) ∧
      s.log[4 * toD x y + 1]? = some (4 * toD x y + 1, 0) ∧
      s.log[4 * toD x y + 2]? = some (4 * toD x y + 2, 128) ∧
      s.log[4 * toD x y + 3]? = some (4 * toD x y + 3, 255) := by
  obtain ⟨g00, g10, g01, g11, h00, h10, h01, h11, hn⟩ := noiseAt_inside zeroGrid x y hx hy
  obtain ⟨_, e00⟩ := Grid.at?_some zeroGrid h00
  obtain ⟨_, e10⟩ := Grid.at?_some zeroGrid h10
  obtain ⟨_, e01⟩ := Grid.at?_some zeroGrid h01
  obtain ⟨_, e11⟩ := Grid.at?_some zeroGrid h11
  unfold zeroGrid at e00 e10 e01 e11
  rw [← e00, ← e10, ← e01, ← e11, blend_zero_gradients] at hn
  have hp : pixelVal zeroGrid x y = some 128 := by
    unfold pixelVal
    rw [hn, Option.map_some', toUint8_mid]
  obtain ⟨s, hs, _, _, _, _, hst⟩ := makePixels_stores zeroGrid
  exact ⟨hn, hp, s, hs, hst x y hx hy 128 hp⟩

/-- Instance of C9 at pixel `(437, 258)`. -/
theorem C9_zero_grid_witness :
    437 < WIDTH ∧ 258 < HEIGHT ∧
    noiseAt zeroGrid 437 258 = some 0 ∧ pixelVal zeroGrid 437 258 = some 128 :=
  ⟨by decide, by decide, (C9_zero_grid 437 258 (by decide) (by decide)).1,
    (C9_zero_grid 437 258 (by decide) (by decide)).2.1⟩

/-- C10: corner continuity of the per-cell blend: for any four corner gradients, the
value `nxy` at `(u, v) = (0, 0)`, `(1, 0)`, `(0, 1)`, `(1, 1)` equals the clamped dot
product `n00`, `n10`, `n01`, `n11` of the corresponding corner, evaluated at that
`(u, v)`. -/
theorem C10_corner_continuity (g00 g10 g01 g11 : Vector2d) :
    blend g00 g10 g01 g11 0 0 = clamp (dotProduct g00 ⟨0, 0⟩) ∧
    blend g00 g10 g01 g11 1 0 = clamp (dotProduct g10 ⟨1 - 1, 0⟩) ∧
    blend g00 g10 g01 g11 0 1 = clamp (dotProduct g01 ⟨0, 1 - 1⟩) ∧
    blend g00 g10 g01 g11 1 1 = clamp (dotProduct g11 ⟨1 - 1, 1 - 1⟩) := by
  have m0 : mix 0 = 0 := by norm_num [mix]
  have m1 : mix 1 = 1 := by norm_num [mix]
  refine ⟨?_, ?_, ?_, ?_⟩ <;> simp only [blend, m0, m1] <;> ring

/-! ## Claims about the easing polynomial, the cell coordinates and the clamp -/

/-- C11: the easing function `mix t = 6t^5 - 15t^4 + 10t^3` satisfies `mix 0 = 0`,
`mix 1 = 1` and `mix (1/2) = 1/2`. -/
theorem C11_mix_values :
    (∀ t : ℚ, mix t = 6 * t ^ 5 - 15 * t ^ 4 + 10 * t ^ 3) ∧
    mix 0 = 0 ∧ mix 1 = 1 ∧ mix (1 / 2) = 1 / 2 := by
  refine ⟨fun _ => rfl, ?_, ?_, ?_⟩ <;> norm_num [mix]

/-- The derivative `30 t^2 (1 - t)^2` of the easing polynomial. -/
theorem mix_increment (s t : ℚ) :
    mix t - mix s = (t - s) * ((1 / 3) *
      (7 * (s * (1 - s)) ^ 2 + 32 * (((3 * s + t) / 4) * (1 - (3 * s + t) / 4)) ^ 2
        + 12 * (((s + t) / 2) * (1 - (s + t) / 2)) ^ 2
        + 32 * (((s + 3 * t) / 4) * (1 - (s + 3 * t) / 4)) ^ 2
        + 7 * (t * (1 - t)) ^ 2)) := by
  unfold mix
  ring

theorem mix_mono {s t : ℚ} (h : s ≤ t) : mix s ≤ mix t := by
  have e := mix_increment s t
  have hd : 0 ≤ t - s := by linarith
  have hq : 0 ≤ (1 / 3 : ℚ) *
      (7 * (s * (1 - s)) ^ 2 + 32 * (((3 * s + t) / 4) * (1 - (3 * s + t) / 4)) ^ 2
        + 12 * (((s + t) / 2) * (1 - (s + t) / 2)) ^ 2
        + 32 * (((s + 3 * t) / 4) * (1 - (s + 3 * t) / 4)) ^ 2
        + 7 * (t * (1 - t)) ^ 2) := by positivity
  have := mul_nonneg hd hq
  linarith

/-- The four corner contributions of a pixel and the blend, with the names of the
source. -/
theorem noiseAt_corners (g : Grid) (x y : Nat) (hx : x < WIDTH) (hy : y < HEIGHT) :
    ∃ g00 g10 g01 g11 : Vector2d, ∃ n00 n10 n01 n11 : ℚ,
      g.at? (cellIndex ((y : ℚ) / 100) * SW + cellIndex ((x : ℚ) / 100)) = some g00 ∧
      g.at? (cellIndex ((y : ℚ) / 100) * SW + cellIndex ((x : ℚ) / 100) + 1) = some g10 ∧
      g.at? ((cellIndex ((y : ℚ) / 100) + 1) * SW + cellIndex ((x : ℚ) / 100)) = some g01 ∧
      g.at? ((cellIndex ((y : ℚ) / 100) + 1) * SW + cellIndex ((x : ℚ) / 100) + 1)
        = some g11 ∧
      n00 = clamp (dotProduct g00 ⟨offset x, offset y⟩) ∧
      n10 = clamp (dotProduct g10 ⟨offset x - 1, offset y⟩) ∧
      n01 = clamp (dotProduct g01 ⟨offset x, offset y - 1⟩) ∧
      n11 = clamp (dotProduct g11 ⟨offset x - 1, offset y - 1⟩) ∧
      noiseAt g x y = some
        ((n00 * (1 - mix (offset x)) + n10 * mix (offset x)) * (1 - mix (offset y))
          + (n01 * (1 - mix (offset x)) + n11 * mix (offset x)) * mix (offset y)) := by
  obtain ⟨g00, g10, g01, g11, h00, h10, h01, h11, hn⟩ := noiseAt_inside g x y hx hy
  rw [cellIndex_div, cellIndex_div]
  exact ⟨g00, g10, g01, g11, _, _, _, _, h00, h10, h01, h11, rfl, rfl, rfl, rfl, hn⟩

/-- C14: `clamp` saturates to `[-1, 1]`: `clamp v = -1` if `v < -1`, `clamp v = 1` if
`v > 1`, and `clamp v = v` otherwise; consequently, for every gradient grid and every
pixel, each of the four corner contributions `n00`, `n10`, `n01`, `n11` used in the
blend lies in `[-1, 1]`. -/
theorem C14_clamp_saturates (v : ℚ) (g : Grid) (x y : Nat) (hx : x < WIDTH) (hy : y < HEIGHT) :
    ((v < -1 → clamp v = -1) ∧ (v > 1 → clamp v = 1) ∧
      (¬ v < -1 → ¬ v > 1 → clamp v = v) ∧ -1 ≤ clamp v ∧ clamp v ≤ 1) ∧
    ∃ g00 g10 g01 g11 : Vector2d, ∃ n00 n10 n01 n11 : ℚ,
      g.at? (cellIndex ((y : ℚ) / 100) * SW + cellIndex ((x : ℚ) / 100)) = some g00 ∧
      g.at? (cellIndex ((y : ℚ) / 100) * SW + cellIndex ((x : ℚ) / 100) + 1) = some g10 ∧
      g.at? ((cellIndex ((y : ℚ) / 100) + 1) * SW + cellIndex ((x : ℚ) / 100)) = some g01 ∧
      g.at? ((cellIndex ((y : ℚ) / 100) + 1) * SW + cellIndex ((x : ℚ) / 100) + 1)
        = some g11 ∧
      n00 = clamp (dotProduct g00 ⟨offset x, offset y⟩) ∧
      n10 = clamp (dotProduct g10 ⟨offset x - 1, offset y⟩) ∧
      n01 = clamp (dotProduct g01 ⟨offset x, offset y - 1⟩) ∧
      n11 = clamp (dotProduct g11 ⟨offset x - 1, offset y - 1⟩) ∧
      noiseAt g x y = some
        ((n00 * (1 - mix (offset x)) + n10 * mix (offset x)) * (1 - mix (offset y))
          + (n01 * (1 - mix (offset x)) + n11 * mix (offset x)) * mix (offset y)) ∧
      (-1 ≤ n00 ∧ n00 ≤ 1) ∧ (-1 ≤ n10 ∧ n10 ≤ 1) ∧
      (-1 ≤ n01 ∧ n01 ≤ 1) ∧ (-1 ≤ n11 ∧ n11 ≤ 1) := by
  refine ⟨⟨?_, ?_, ?_, clamp_ge v, clamp_le v⟩, ?_⟩
  · intro h
    unfold clamp
    rw [if_pos h]
  · intro h
    have h' : ¬ v < -1 := by linarith
    unfold clamp
    rw [if_neg h', if_pos h]
  · intro h1 h2
    unfold clamp
    rw [if_neg h1, if_neg h2]
  · obtain ⟨g00, g10, g01, g11, n00, n10, n01, n11, h00, h10, h01, h11, e00, e10, e01, e11, hn⟩ :=
      noiseAt_corners g x y hx hy
    refine ⟨g00, g10, g01, g11, n00, n10, n01, n11, h00, h10, h01, h11, e00, e10, e01, e11,
      hn, ?_, ?_, ?_, ?_⟩
    · rw [e00]; exact ⟨clamp_ge _, clamp_le _⟩
    · rw [e10]; exact ⟨clamp_ge _, clamp_le _⟩
    · rw [e01]; exact ⟨clamp_ge _, clamp_le _⟩
    · rw [e11]; exact ⟨clamp_ge _, clamp_le _⟩

/-- Instance of C14 at `v = 3`, `peakGrid` and pixel `(0, 50)`: `clamp 3 = 1`. -/
theorem C14_clamp_saturates_witness :
    0 < WIDTH ∧ 50 < HEIGHT ∧ clamp 3 = 1 ∧ clamp (-3) = -1 ∧ clamp (1 / 3) = 1 / 3 :=
  ⟨by decide, by decide,
    (C14_clamp_saturates 3 peakGrid 0 50 (by decide) (by decide)).1.2.1 (by norm_num),
    (C14_clamp_saturates (-3) peakGrid 0 50 (by decide) (by decide)).1.1 (by norm_num),
    (C14_clamp_saturates (1 / 3) peakGrid 0 50 (by decide) (by decide)).1.2.2.1
      (by norm_num) (by norm_num)⟩

/-! ## Claims about makeGradients -/

theorem Grid.set?_lt (g : Grid) {k : Nat} (h : k < SW * SH) (w : Vector2d) :
    g.set? k w = some (Function.update g ⟨k, h⟩ w) := by
  simp [Grid.set?, h]

/-- The loop of `makeGradients` after `n` rounds, started from two grids with the same
engine state: both runs succeed with the same engine state, the entries below `n` agree,
and the entries from `n` on are still the initial ones. -/
theorem gradients_loop {σ : Type} (R : RandomSource σ) (leftFirst : Bool) (g g' : Grid) (r : σ)
    (n : Nat) (hn : n ≤ SW * SH) :
    ∃ (G G' : Grid) (r' : σ),
      (List.range n).foldlM (gradientStep R leftFirst) (g, r) = some (G, r') ∧
      (List.range n).foldlM (gradientStep R leftFirst) (g', r) = some (G', r') ∧
      (∀ k : Fin (SW * SH), k.val < n → G k = G' k) ∧
      (∀ k : Fin (SW * SH), n ≤ k.val → G k = g k ∧ G' k = g' k) := by
  induction n with
  | zero =>
    exact ⟨g, g', r, rfl, rfl, fun k hk => absurd hk (Nat.not_lt_zero _), fun _ _ => ⟨rfl, rfl⟩⟩
  | succ n ih =>
    obtain ⟨G, G', r', e1, e2, hlow, hhigh⟩ := ih (by omega)
    have hlt : n < SW * SH := by omega
    refine ⟨Function.update G ⟨n, hlt⟩ (drawVector R leftFirst r').1,
      Function.update G' ⟨n, hlt⟩ (drawVector R leftFirst r').1,
      (drawVector R leftFirst r').2, ?_, ?_, ?_, ?_⟩
    · rw [List.range_succ, List.foldlM_append, e1]
      simp only [Option.bind_eq_bind, Option.some_bind, List.foldlM_cons, List.foldlM_nil,
        gradientStep, Grid.set?_lt _ hlt, Option.map_some', Option.pure_def]
    · rw [List.range_succ, List.foldlM_append, e2]
      simp only [Option.bind_eq_bind, Option.some_bind, List.foldlM_cons, List.foldlM_nil,
        gradientStep, Grid.set?_lt _ hlt, Option.map_some', Option.pure_def]
    · intro k hk
      by_cases hkn : k = ⟨n, hlt⟩
      · rw [hkn, Function.update_same, Function.update_same]
      · rw [Function.update_noteq hkn, Function.update_noteq hkn]
        have hne : k.val ≠ n := fun h => hkn (Fin.ext h)
        exact hlow k (by omega)
    · intro k hk
      have hkn : k ≠ ⟨n, hlt⟩ := by
        intro h
        rw [h] at hk
        simp only at hk
        omega
      rw [Function.update_noteq hkn, Function.update_noteq hkn]
      exact hhigh k (by omega)

/-- C15: `makeGradients` is deterministic in its seed: for every random source, every
seed and any two grids `g`, `g'` holding arbitrary previous contents, the two calls with
that seed succeed and leave the same 49 vectors in the grid. -/
theorem C15_makeGradients_deterministic {σ : Type} (R : RandomSource σ) (leftFirst : Bool)
    (seed : ℚ) (g g' : Grid) :
    ∃ G : Grid, makeGradients R leftFirst g seed = some G ∧
      makeGradients R leftFirst g' seed = some G := by
  obtain ⟨G, G', r', e1, e2, hlow, _⟩ :=
    gradients_loop R leftFirst g g' (R.start seed) (SW * SH) le_rfl
  have hG : G' = G := by
    funext k
    exact (hlow k k.isLt).symm
  refine ⟨G, ?_, ?_⟩
  · unfold makeGradients
    rw [e1, Option.map_some']
  · unfold makeGradients
    rw [e2, Option.map_some', hG]

/-- Instance of C15 for the counter source and seed `0`, started from the zero grid and
from `peakGrid`. -/
theorem C15_makeGradients_deterministic_witness :
    ∃ G : Grid, makeGradients counterSource true zeroGrid 0 = some G ∧
      makeGradients counterSource true peakGrid 0 = some G :=
  C15_makeGradients_deterministic counterSource true 0 zeroGrid peakGrid

/-! ## Claims about locality, continuity across cells and symmetry -/

theorem Grid.at?_congr (g g' : Grid) (k : Nat)
    (h : ∀ n : Fin (SW * SH), n.val = k → g n = g' n) : g.at? k = g'.at? k := by
  unfold Grid.at?
  by_cases hk : k < SW * SH
  · rw [dif_pos hk, dif_pos hk, h ⟨k, hk⟩ rfl]
  · rw [dif_neg hk, dif_neg hk]

/-- Two grids with the same four corner gradients give the same noise value. -/
theorem noiseAt_congr (g g' : Grid) (x y : Nat)
    (h00 : g.at? (y / 100 * SW + x / 100) = g'.at? (y / 100 * SW + x / 100))
    (h10 : g.at? (y / 100 * SW + x / 100 + 1) = g'.at? (y / 100 * SW + x / 100 + 1))
    (h01 : g.at? ((y / 100 + 1) * SW + x / 100) = g'.at? ((y / 100 + 1) * SW + x / 100))
    (h11 : g.at? ((y / 100 + 1) * SW + x / 100 + 1)
      = g'.at? ((y / 100 + 1) * SW + x / 100 + 1)) :
    noiseAt g x y = noiseAt g' x y := by
  rw [noiseAt_eq, noiseAt_eq, h00, h10, h01, h11]

/-- C18: locality of the rasterizer: for every pixel `(x, y)` of the 600x600 image and
any two gradient grids that agree at the four flat indices `j*7+i`, `j*7+i+1`,
`(j+1)*7+i`, `(j+1)*7+i+1` with `i = floor(x / 100)`, `j = floor(y / 100)`,
`makePixels` writes the same four bytes for `(x, y)`; replacing any other gradient of a
grid leaves the pixel unchanged. -/
theorem C18_locality (g g' : Grid) (x y : Nat) (hx : x < WIDTH) (hy : y < HEIGHT)
    (h : ∀ k : Fin (SW * SH),
      (k.val = cellIndex ((y : ℚ) / 100) * 7 + cellIndex ((x : ℚ) / 100) ∨
       k.val = cellIndex ((y : ℚ) / 100) * 7 + cellIndex ((x : ℚ) / 100) + 1 ∨
       k.val = (cellIndex ((y : ℚ) / 100) + 1) * 7 + cellIndex ((x : ℚ) / 100) ∨
       k.val = (cellIndex ((y : ℚ) / 100) + 1) * 7 + cellIndex ((x : ℚ) / 100) + 1) →
      g k = g' k) :
    noiseAt g x y = noiseAt g' x y ∧ pixelVal g x y = pixelVal g' x y ∧
    (∃ s s' : Raster, makePixels g = some s ∧ makePixels g' = some s' ∧
      s.log[4 * toD x y]? = s'.log[4 * toD x y]? ∧
      s.log[4 * toD x y + 1]? = s'.log[4 * toD x y + 1]? ∧
      s.log[4 * toD x y + 2]? = s'.log[4 * toD x y + 2]? ∧
      s.log[4 * toD x y + 3]? = s'.log[4 * toD x y + 3]?) ∧
    ∀ (k : Fin (SW * SH)) (w : Vector2d),
      k.val ≠ cellIndex ((y : ℚ) / 100) * 7 + cellIndex ((x : ℚ) / 100) →
      k.val ≠ cellIndex ((y : ℚ) / 100) * 7 + cellIndex ((x : ℚ) / 100) + 1 →
      k.val ≠ (cellIndex ((y : ℚ) / 100) + 1) * 7 + cellIndex ((x : ℚ) / 100) →
      k.val ≠ (cellIndex ((y : ℚ) / 100) + 1) * 7 + cellIndex ((x : ℚ) / 100) + 1 →
      pixelVal (Function.update g k w) x y = pixelVal g x y := by
  rw [cellIndex_div, cellIndex_div] at h
  rw [cellIndex_div, cellIndex_div]
  have hn : noiseAt g x y = noiseAt g' x y := by
    apply noiseAt_congr
    · exact Grid.at?_congr g g' _ fun n hn => h n (Or.inl hn)
    · exact Grid.at?_congr g g' _ fun n hn => h n (Or.inr (Or.inl hn))
    · exact Grid.at?_congr g g' _ fun n hn => h n (Or.inr (Or.inr (Or.inl hn)))
    · exact Grid.at?_congr g g' _ fun n hn => h n (Or.inr (Or.inr (Or.inr hn)))
  have hp : pixelVal g x y = pixelVal g' x y := by
    unfold pixelVal
    rw [hn]
  refine ⟨hn, hp, ?_, ?_⟩
  · obtain ⟨s, hs, _, _, _, _, hst⟩ := makePixels_stores g
    obtain ⟨s', hs', _, _, _, _, hst'⟩ := makePixels_stores g'
    have hv := pixelVal_valOf g x y hx hy
    have hv' := pixelVal_valOf g' x y hx hy
    obtain ⟨a0, a1, a2, a3⟩ := hst x y hx hy _ hv
    obtain ⟨b0, b1, b2, b3⟩ := hst' x y hx hy _ (hp ▸ hv)
    exact ⟨s, s', hs, hs', a0.trans b0.symm, a1.trans b1.symm, a2.trans b2.symm,
      a3.trans b3.symm⟩
  · intro k w n00 n10 n01 n11
    have hu : ∀ (m : Nat) (n : Fin (SW * SH)), k.val ≠ m → n.val = m →
        Function.update g k w n = g n := by
      intro m n hkm hnm
      apply Function.update_noteq
      intro hnk
      exact hkm (by rw [← hnk, hnm])
    have hn2 : noiseAt (Function.update g k w) x y = noiseAt g x y := by
      apply noiseAt_congr
      · exact Grid.at?_congr _ g _ fun n hn => hu _ n n00 hn
      · exact Grid.at?_congr _ g _ fun n hn => hu _ n n10 hn
      · exact Grid.at?_congr _ g _ fun n hn => hu _ n n01 hn
      · exact Grid.at?_congr _ g _ fun n hn => hu _ n n11 hn
    unfold pixelVal
    rw [hn2]

theorem bumpGrid_agrees (k : Fin (SW * SH)) (hk : k.val ≠ 48) : zeroGrid k = bumpGrid k := by
  unfold bumpGrid
  rw [Function.update_noteq]
  intro h
  exact hk (by rw [h])

/-- Instance of C18 at pixel `(0, 0)`, whose corner indices are `0, 1, 7, 8`, for the
zero grid and the grid that differs from it at entry `48`. -/
theorem C18_locality_witness :
    0 < WIDTH ∧ 0 < HEIGHT ∧ bumpGrid ⟨48, by decide⟩ ≠ zeroGrid ⟨48, by decide⟩ ∧
    noiseAt zeroGrid 0 0 = noiseAt bumpGrid 0 0 ∧
    pixelVal zeroGrid 0 0 = pixelVal bumpGrid 0 0 := by
  have h := C18_locality zeroGrid bumpGrid 0 0 (by decide) (by decide) (by
    intro k hk
    rw [cellIndex_div] at hk
    exact bumpGrid_agrees k (by omega))
  refine ⟨by decide, by decide, ?_, h.1, h.2.1⟩
  unfold bumpGrid zeroGrid
  rw [Function.update_same]
  intro hc
  have hx := congrArg Vector2d.x hc
  norm_num at hx

/-- Inside the grid of cells the four lookups of `cellNoise` succeed. -/
theorem cellNoise_inside (g : Grid) (i j : Nat) (u v : ℚ) (hi : i ≤ 5) (hj : j ≤ 5) :
    ∃ g00 g10 g01 g11 : Vector2d,
      g.at? (j * SW + i) = some g00 ∧ g.at? (j * SW + i + 1) = some g10 ∧
      g.at? ((j + 1) * SW + i) = some g01 ∧ g.at? ((j + 1) * SW + i + 1) = some g11 ∧
      cellNoise g i j u v = some (blend g00 g10 g01 g11 u v) := by
  have h00 : j * SW + i < SW * SH := by unfold SW SH; omega
  have h10 : j * SW + i + 1 < SW * SH := by unfold SW SH; omega
  have h01 : (j + 1) * SW + i < SW * SH := by unfold SW SH; omega
  have h11 : (j + 1) * SW + i + 1 < SW * SH := by unfold SW SH; omega
  refine ⟨g ⟨_, h00⟩, g ⟨_, h10⟩, g ⟨_, h01⟩, g ⟨_, h11⟩,
    g.at?_lt h00, g.at?_lt h10, g.at?_lt h01, g.at?_lt h11, ?_⟩
  unfold cellNoise
  simp only [g.at?_lt h00, g.at?_lt h10, g.at?_lt h01, g.at?_lt h11]
  rfl

/-- The noise of a pixel is the cell formula at its cell and offsets. -/
theorem noiseAt_eq_cellNoise (g : Grid) (x y : Nat) :
    noiseAt g x y = cellNoise g (cellIndex ((x : ℚ) / 100)) (cellIndex ((y : ℚ) / 100))
      (offset x) (offset y) := rfl

/-- On the right edge `u = 1` only the two right corners count. -/
theorem blend_right_edge (g00 g10 g01 g11 : Vector2d) (v : ℚ) :
    blend g00 g10 g01 g11 1 v =
      clamp (dotProduct g10 ⟨0, v⟩) * (1 - mix v) + clamp (dotProduct g11 ⟨0, v - 1⟩) * mix v := by
  have m1 : mix 1 = 1 := by norm_num [mix]
  simp only [blend, m1, sub_self]
  ring

/-- On the left edge `u = 0` only the two left corners count. -/
theorem blend_left_edge (g00 g10 g01 g11 : Vector2d) (v : ℚ) :
    blend g00 g10 g01 g11 0 v =
      clamp (dotProduct g00 ⟨0, v⟩) * (1 - mix v) + clamp (dotProduct g01 ⟨0, v - 1⟩) * mix v := by
  have m0 : mix 0 = 0 := by norm_num [mix]
  simp only [blend, m0]
  ring

/-- On the lower edge `v = 1` only the two lower corners count. -/
theorem blend_lower_edge (g00 g10 g01 g11 : Vector2d) (u : ℚ) :
    blend g00 g10 g01 g11 u 1 =
      clamp (dotProduct g01 ⟨u, 0⟩) * (1 - mix u) + clamp (dotProduct g11 ⟨u - 1, 0⟩) * mix u := by
  have m1 : mix 1 = 1 := by norm_num [mix]
  simp only [blend, m1, sub_self]
  ring

/-- On the upper edge `v = 0` only the two upper corners count. -/
theorem blend_upper_edge (g00 g10 g01 g11 : Vector2d) (u : ℚ) :
    blend g00 g10 g01 g11 u 0 =
      clamp (dotProduct g00 ⟨u, 0⟩) * (1 - mix u) + clamp (dotProduct g10 ⟨u - 1, 0⟩) * mix u := by
  have m0 : mix 0 = 0 := by norm_num [mix]
  simp only [blend, m0]
  ring

/-- C19: the noise field is continuous across cell edges: with the per-cell formulas
of `makePixels` taken as the function `cellNoise g i j u v`, for every gradient grid,
every cell `(i, j)` and all `u`, `v` in `[0, 1]`: if `i + 1 ≤ 5` then
`cellNoise g i j 1 v = cellNoise g (i + 1) j 0 v`, and if `j + 1 ≤ 5` then
`cellNoise g i j u 1 = cellNoise g i (j + 1) u 0`, both sides being defined. -/
theorem C19_edge_continuity (g : Grid) (i j : Nat) (u v : ℚ) (hi : i ≤ 5) (hj : j ≤ 5)
    (_hu0 : 0 ≤ u) (_hu1 : u ≤ 1) (_hv0 : 0 ≤ v) (_hv1 : v ≤ 1) :
    (i + 1 ≤ 5 → ∃ n : ℚ, cellNoise g i j 1 v = some n ∧ cellNoise g (i + 1) j 0 v = some n) ∧
    (j + 1 ≤ 5 → ∃ n : ℚ, cellNoise g i j u 1 = some n ∧ cellNoise g i (j + 1) u 0 = some n) ∧
    ∀ x y : Nat, noiseAt g x y =
      cellNoise g (cellIndex ((x : ℚ) / 100)) (cellIndex ((y : ℚ) / 100)) (offset x) (offset y) := by
  refine ⟨?_, ?_, fun x y => noiseAt_eq_cellNoise g x y⟩
  · intro hi1
    obtain ⟨a00, a10, a01, a11, _, ha10, _, ha11, ea⟩ := cellNoise_inside g i j 1 v hi hj
    obtain ⟨b00, b10, b01, b11, hb00, _, hb01, _, eb⟩ := cellNoise_inside g (i + 1) j 0 v hi1 hj
    have e1 : b00 = a10 := by
      rw [← Nat.add_assoc, ha10] at hb00
      exact (Option.some.inj hb00).symm
    have e2 : b01 = a11 := by
      rw [← Nat.add_assoc, ha11] at hb01
      exact (Option.some.inj hb01).symm
    refine ⟨_, ea, ?_⟩
    rw [eb, blend_right_edge, blend_left_edge, e1, e2]
  · intro hj1
    obtain ⟨a00, a10, a01, a11, _, _, ha01, ha11, ea⟩ := cellNoise_inside g i j u 1 hi hj
    obtain ⟨b00, b10, b01, b11, hb00, hb10, _, _, eb⟩ := cellNoise_inside g i (j + 1) u 0 hi hj1
    have e1 : b00 = a01 := by
      rw [ha01] at hb00
      exact (Option.some.inj hb00).symm
    have e2 : b10 = a11 := by
      rw [ha11] at hb10
      exact (Option.some.inj hb10).symm
    refine ⟨_, ea, ?_⟩
    rw [eb, blend_lower_edge, blend_upper_edge, e1, e2]

/-- Instance of C19 at `peakGrid`, cell `(0, 0)`, `u = v = 1/2`: the values on the edge
shared with cell `(0, 1)`, where the gradients change from `(0, 2)` to `(0, -2)`, agree. -/
theorem C19_edge_continuity_witness :
    (0 : ℚ) ≤ 1 / 2 ∧ (1 / 2 : ℚ) ≤ 1 ∧
    (∃ n : ℚ, cellNoise peakGrid 0 0 1 (1 / 2) = some n ∧
      cellNoise peakGrid 1 0 0 (1 / 2) = some n) ∧
    (∃ n : ℚ, cellNoise peakGrid 0 0 (1 / 2) 1 = some n ∧
      cellNoise peakGrid 0 1 (1 / 2) 0 = some n) :=
  ⟨by norm_num, by norm_num,
    (C19_edge_continuity peakGrid 0 0 (1 / 2) (1 / 2) (by decide) (by decide) (by norm_num)
      (by norm_num) (by norm_num) (by norm_num)).1 (by decide),
    (C19_edge_continuity peakGrid 0 0 (1 / 2) (1 / 2) (by decide) (by decide) (by norm_num)
      (by norm_num) (by norm_num) (by norm_num)).2.1 (by decide)⟩

/-- The clamp is an odd function. -/
theorem clamp_neg (v : ℚ) : clamp (-v) = -clamp v := by
  unfold clamp
  split_ifs <;> linarith

theorem dotProduct_neg (a b : Vector2d) :
    dotProduct ⟨-a.x, -a.y⟩ b = -dotProduct a b := by
  unfold dotProduct
  ring

/-- Negating the four corner gradients negates the blend. -/
theorem blend_neg (g00 g10 g01 g11 : Vector2d) (u v : ℚ) :
    blend ⟨-g00.x, -g00.y⟩ ⟨-g10.x, -g10.y⟩ ⟨-g01.x, -g01.y⟩ ⟨-g11.x, -g11.y⟩ u v
      = -blend g00 g10 g01 g11 u v := by
  rw [blend_expand, blend_expand]
  simp only [dotProduct_neg, clamp_neg]
  ring

theorem negGrid_at? (g : Grid) (k : Nat) :
    (negGrid g).at? k = (g.at? k).map fun w => ⟨-w.x, -w.y⟩ := by
  unfold Grid.at?
  by_cases hk : k < SW * SH
  · rw [dif_pos hk, dif_pos hk]
    rfl
  · rw [dif_neg hk, dif_neg hk]
    rfl

/-- C20: the blended noise value is odd in the gradient grid: for every gradient grid
`g` and every pixel `(x, y)` of the image, negating every gradient vector of `g` negates
the blended value `nxy` computed by `makePixels`; the clamp is odd, and the dot product
and the blend are linear. -/
theorem C20_noise_odd (g : Grid) (x y : Nat) (hx : x < WIDTH) (hy : y < HEIGHT) :
    (∃ n : ℚ, noiseAt g x y = some n ∧ noiseAt (negGrid g) x y = some (-n)) ∧
    (∀ v : ℚ, clamp (-v) = -clamp v) ∧
    (∀ a b : Vector2d, dotProduct ⟨-a.x, -a.y⟩ b = -dotProduct a b) := by
  refine ⟨?_, clamp_neg, dotProduct_neg⟩
  obtain ⟨g00, g10, g01, g11, h00, h10, h01, h11, hn⟩ := noiseAt_inside g x y hx hy
  refine ⟨_, hn, ?_⟩
  rw [noiseAt_eq, negGrid_at?, negGrid_at?, negGrid_at?, negGrid_at?, h00, h10, h01, h11]
  simp only [Option.map_some', Option.some_bind]
  rw [blend_neg, offset_eq, offset_eq]

/-- Instance of C20 at `peakGrid`, pixel `(0, 50)`, where the noise value is `1`. -/
theorem C20_noise_odd_witness :
    0 < WIDTH ∧ 50 < HEIGHT ∧
    ∃ n : ℚ, noiseAt peakGrid 0 50 = some n ∧ noiseAt (negGrid peakGrid) 0 50 = some (-n) :=
  ⟨by decide, by decide, (C20_noise_odd peakGrid 0 50 (by decide) (by decide)).1⟩

/-! ## Binary64 rounding: the logarithm and the error bound -/

theorem bitLen_zero (f : Nat) : bitLen f 0 = 0 := by
  cases f <;> simp [bitLen]

/-- Dividing by `2 ^ j` removes `j` binary digits. -/
theorem bitLen_step (j n l : Nat) (h1 : 2 ^ (l - 1) ≤ n / 2 ^ j) (h2 : n / 2 ^ j < 2 ^ l)
    (h3 : 1 ≤ l) : 2 ^ (l + j - 1) ≤ n ∧ n < 2 ^ (l + j) ∧ 1 ≤ l + j := by
  have hp : 0 < 2 ^ j := Nat.two_pow_pos j
  refine ⟨?_, ?_, by omega⟩
  · have e : l + j - 1 = (l - 1) + j := by omega
    rw [e, pow_add]
    exact (Nat.le_div_iff_mul_le hp).mp h1
  · rw [pow_add]
    exact (Nat.div_lt_iff_lt_mul hp).mp h2

theorem bitLen_spec (f : Nat) : ∀ n : Nat, n ≠ 0 → n < 2 ^ f →
    2 ^ (bitLen f n - 1) ≤ n ∧ n < 2 ^ bitLen f n ∧ 1 ≤ bitLen f n := by
  induction f with
  | zero =>
    intro n hn h
    simp at h
    exact absurd h hn
  | succ f ih =>
    intro n hn h
    have hhalf : n / 2 < 2 ^ f := by
      rw [pow_succ] at h
      omega
    by_cases c64 : 2 ^ 64 ≤ n
    · have hb : bitLen (f + 1) n = bitLen f (n / 2 ^ 64) + 64 := by
        rw [bitLen, if_neg hn, if_pos c64]
      have hne : n / 2 ^ 64 ≠ 0 := by
        have := (Nat.le_div_iff_mul_le (Nat.two_pow_pos 64)).mpr
          (by simpa using c64 : 1 * 2 ^ 64 ≤ n)
        omega
      have hlt : n / 2 ^ 64 < 2 ^ f :=
        lt_of_le_of_lt (Nat.div_le_div_left (by norm_num) (by norm_num)) hhalf
      obtain ⟨l1, l2, l3⟩ := ih _ hne hlt
      rw [hb]
      exact bitLen_step 64 n _ l1 l2 l3
    · by_cases c8 : 2 ^ 8 ≤ n
      · have hb : bitLen (f + 1) n = bitLen f (n / 2 ^ 8) + 8 := by
          rw [bitLen, if_neg hn, if_neg c64, if_pos c8]
        have hne : n / 2 ^ 8 ≠ 0 := by
          have := (Nat.le_div_iff_mul_le (Nat.two_pow_pos 8)).mpr
            (by simpa using c8 : 1 * 2 ^ 8 ≤ n)
          omega
        have hlt : n / 2 ^ 8 < 2 ^ f :=
          lt_of_le_of_lt (Nat.div_le_div_left (by norm_num) (by norm_num)) hhalf
        obtain ⟨l1, l2, l3⟩ := ih _ hne hlt
        rw [hb]
        exact bitLen_step 8 n _ l1 l2 l3
      · have hb : bitLen (f + 1) n = bitLen f (n / 2) + 1 := by
          rw [bitLen, if_neg hn, if_neg c64, if_neg c8]
        rw [hb]
        by_cases h2 : n / 2 = 0
        · rw [h2, bitLen_zero]
          have : n = 1 := by omega
          subst this
          simp
        · obtain ⟨l1, l2, l3⟩ := ih _ h2 hhalf
          have := bitLen_step 1 n _ (by simpa using l1) (by simpa using l2) l3
          simpa using this

theorem bitLen_self (n : Nat) (hn : n ≠ 0) :
    2 ^ (bitLen n n - 1) ≤ n ∧ n < 2 ^ bitLen n n ∧ 1 ≤ bitLen n n :=
  bitLen_spec n n hn (Nat.lt_two_pow n)

theorem roundEven_err (q : ℚ) : |(roundEven q : ℚ) - q| ≤ 1 / 2 := by
  have h1 := Int.floor_le q
  have h2 := Int.lt_floor_add_one q
  rw [abs_le]
  unfold roundEven
  split_ifs with a b c
  · constructor <;> linarith
  · push_cast; constructor <;> linarith
  · have : q - ⌊q⌋ = 1 / 2 := le_antisymm (not_lt.mp b) (not_lt.mp a)
    constructor <;> linarith
  · have : q - ⌊q⌋ = 1 / 2 := le_antisymm (not_lt.mp b) (not_lt.mp a)
    push_cast; constructor <;> linarith

/-- Lower bound of the binary logarithm: `2 ^ ilog2 a ≤ a` for positive `a`. -/
theorem ilog2_le {a : ℚ} (ha : 0 < a) : (2 : ℚ) ^ ilog2 a ≤ a := by
  unfold ilog2
  split_ifs with h
  · exact h
  · have hnum : 0 < a.num := Rat.num_pos.mpr ha
    have hN : a.num.natAbs ≠ 0 := by omega
    have hD : a.den ≠ 0 := a.den_nz
    obtain ⟨n1, _, n3⟩ := bitLen_self _ hN
    obtain ⟨_, d2, d3⟩ := bitLen_self _ hD
    have e1 : ((a.num.natAbs : ℕ) : ℚ) = (a.num : ℚ) := by
      rw [← Int.cast_natCast, Int.natAbs_of_nonneg hnum.le]
    have ha' : a = (a.num.natAbs : ℚ) / (a.den : ℚ) := by
      rw [e1]; exact (Rat.num_div_den a).symm
    have hn : (2 : ℚ) ^ (bitLen a.num.natAbs a.num.natAbs - 1) ≤ (a.num.natAbs : ℚ) := by
      exact_mod_cast n1
    have hd : (a.den : ℚ) < (2 : ℚ) ^ (bitLen a.den a.den) := by
      exact_mod_cast d2
    have hdpos : (0 : ℚ) < a.den := by exact_mod_cast Nat.pos_of_ne_zero hD
    have key : (2 : ℚ) ^ ((bitLen a.num.natAbs a.num.natAbs : ℤ) - (bitLen a.den a.den : ℤ) - 1)
        = (2 : ℚ) ^ (bitLen a.num.natAbs a.num.natAbs - 1) / (2 : ℚ) ^ (bitLen a.den a.den) := by
      have : ((bitLen a.num.natAbs a.num.natAbs : ℤ) - (bitLen a.den a.den : ℤ) - 1)
          = ((bitLen a.num.natAbs a.num.natAbs - 1 : ℕ) : ℤ) - ((bitLen a.den a.den : ℕ) : ℤ) := by
        omega
      rw [this, zpow_sub₀ (by norm_num), zpow_natCast, zpow_natCast]
    rw [key]
    conv_rhs => rw [ha']
    have hp : (0 : ℚ) < (2 : ℚ) ^ (bitLen a.den a.den) := by positivity
    rw [div_le_div_iff₀ hp hdpos]
    have hp1 : (0 : ℚ) ≤ (2 : ℚ) ^ (bitLen a.num.natAbs a.num.natAbs - 1) := by positivity
    nlinarith

theorem ulpExp_le {x : ℚ} {k : ℤ} (hk : -1022 ≤ k) (h0 : x ≠ 0) (hx : |x| ≤ 2 ^ k) :
    ulpExp x ≤ k - 52 := by
  unfold ulpExp
  apply max_le _ (by omega)
  have hpos : 0 < |x| := abs_pos.mpr h0
  have h1 := ilog2_le hpos
  have h2 : (2 : ℚ) ^ ilog2 |x| ≤ 2 ^ k := le_trans h1 hx
  have := (zpow_le_zpow_iff_right₀ (by norm_num : (1 : ℚ) < 2)).mp h2
  omega

theorem fl_zero : fl 0 = 0 := by decide!

/-- Rounding error of `fl` for an argument of magnitude at most `2 ^ k`. -/
theorem fl_err {x : ℚ} {k : ℤ} (hk : -1022 ≤ k) (hx : |x| ≤ 2 ^ k) :
    |fl x - x| ≤ 2 ^ (k - 53) := by
  by_cases h0 : x = 0
  · subst h0
    rw [fl_zero, sub_zero, abs_zero]
    positivity
  have he := ulpExp_le hk h0 hx
  have hp : (0 : ℚ) < 2 ^ ulpExp x := by positivity
  have e : fl x - x = ((roundEven (x / 2 ^ ulpExp x) : ℚ) - x / 2 ^ ulpExp x) * 2 ^ ulpExp x := by
    unfold fl
    field_simp
  rw [e, abs_mul, abs_of_pos hp]
  have h1 := roundEven_err (x / 2 ^ ulpExp x)
  have h2 : (2 : ℚ) ^ ulpExp x ≤ 2 ^ (k - 52) :=
    (zpow_le_zpow_iff_right₀ (by norm_num : (1 : ℚ) < 2)).mpr he
  have h3 : (2 : ℚ) ^ (k - 52) = 2 * 2 ^ (k - 53) := by
    have : k - 52 = (k - 53) + 1 := by ring
    rw [this, zpow_add_one₀ (by norm_num)]
    ring
  calc |(roundEven (x / 2 ^ ulpExp x) : ℚ) - x / 2 ^ ulpExp x| * 2 ^ ulpExp x
      ≤ 1 / 2 * 2 ^ ulpExp x := by
        apply mul_le_mul_of_nonneg_right h1 hp.le
    _ ≤ 1 / 2 * 2 ^ (k - 52) := by linarith
    _ = 2 ^ (k - 53) := by rw [h3]; ring

/-- Upper bound of the binary logarithm: `a < 2 ^ (ilog2 a + 1)` for positive `a`. -/
theorem lt_ilog2 {a : ℚ} (ha : 0 < a) : a < (2 : ℚ) ^ (ilog2 a + 1) := by
  unfold ilog2
  split_ifs with h
  · have hnum : 0 < a.num := Rat.num_pos.mpr ha
    have hN : a.num.natAbs ≠ 0 := by omega
    have hD : a.den ≠ 0 := a.den_nz
    obtain ⟨_, n2, n3⟩ := bitLen_self _ hN
    obtain ⟨d1, _, d3⟩ := bitLen_self _ hD
    have e1 : ((a.num.natAbs : ℕ) : ℚ) = (a.num : ℚ) := by
      rw [← Int.cast_natCast, Int.natAbs_of_nonneg hnum.le]
    have ha' : a = (a.num.natAbs : ℚ) / (a.den : ℚ) := by
      rw [e1]; exact (Rat.num_div_den a).symm
    have hn : (a.num.natAbs : ℚ) < (2 : ℚ) ^ (bitLen a.num.natAbs a.num.natAbs) := by
      exact_mod_cast n2
    have hd : (2 : ℚ) ^ (bitLen a.den a.den - 1) ≤ (a.den : ℚ) := by
      exact_mod_cast d1
    have hdpos : (0 : ℚ) < a.den := by exact_mod_cast Nat.pos_of_ne_zero hD
    have key : (2 : ℚ) ^ ((bitLen a.num.natAbs a.num.natAbs : ℤ) - (bitLen a.den a.den : ℤ) + 1)
        = (2 : ℚ) ^ (bitLen a.num.natAbs a.num.natAbs) / (2 : ℚ) ^ (bitLen a.den a.den - 1) := by
      have : ((bitLen a.num.natAbs a.num.natAbs : ℤ) - (bitLen a.den a.den : ℤ) + 1)
          = ((bitLen a.num.natAbs a.num.natAbs : ℕ) : ℤ) - ((bitLen a.den a.den - 1 : ℕ) : ℤ) := by
        omega
      rw [this, zpow_sub₀ (by norm_num), zpow_natCast, zpow_natCast]
    rw [key]
    conv_lhs => rw [ha']
    have hp : (0 : ℚ) < (2 : ℚ) ^ (bitLen a.den a.den - 1) := by positivity
    rw [div_lt_div_iff₀ hdpos hp]
    have hp1 : (0 : ℚ) ≤ (a.num.natAbs : ℚ) := by positivity
    nlinarith
  · rw [sub_add_cancel]
    exact not_le.mp h

/-- Two-sided form of the rounding error bound. -/
theorem fl_near {x : ℚ} {k : ℤ} (hk : -1022 ≤ k) (lo : -(2 : ℚ) ^ k ≤ x) (hi : x ≤ 2 ^ k) :
    x - 2 ^ (k - 53) ≤ fl x ∧ fl x ≤ x + 2 ^ (k - 53) := by
  have h := abs_le.mp (fl_err hk (abs_le.mpr ⟨lo, hi⟩))
  constructor <;> linarith [h.1, h.2]

/-- The rounding error bound for an argument of magnitude at most `2 ^ j`, `j` a natural
number. -/
theorem fl_near_nat {x : ℚ} (j : Nat) (lo : -(2 : ℚ) ^ j ≤ x) (hi : x ≤ 2 ^ j) :
    x - 2 ^ j / 2 ^ 53 ≤ fl x ∧ fl x ≤ x + 2 ^ j / 2 ^ 53 := by
  have e : (2 : ℚ) ^ ((j : ℤ) - 53) = 2 ^ j / 2 ^ 53 := by
    rw [zpow_sub₀ (by norm_num), zpow_natCast]
    norm_num
  have h := fl_near (x := x) (k := (j : ℤ)) (by omega)
    (by rw [zpow_natCast]; exact lo) (by rw [zpow_natCast]; exact hi)
  rw [e] at h
  exact h

/-- The rounded `mix` stays within `2^-45` of the polynomial on `[0, 1]`. -/
theorem mixD_err {t : ℚ} (h0 : 0 ≤ t) (h1 : t ≤ 1) :
    mix t - 1 / 2 ^ 45 ≤ mixD t ∧ mixD t ≤ mix t + 1 / 2 ^ 45 := by
  have q3 : 0 ≤ t ^ 3 := by positivity
  have q4 : 0 ≤ t ^ 4 := by positivity
  have q5 : 0 ≤ t ^ 5 := by positivity
  have r3 : t ^ 3 ≤ 1 := pow_le_one₀ h0 h1
  have r4 : t ^ 4 ≤ 1 := pow_le_one₀ h0 h1
  have r5 : t ^ 5 ≤ 1 := pow_le_one₀ h0 h1
  obtain ⟨a1, a2⟩ := fl_near_nat (x := t ^ 5) 0 (by norm_num; linarith) (by norm_num; linarith)
  obtain ⟨b1, b2⟩ := fl_near_nat (x := t ^ 4) 0 (by norm_num; linarith) (by norm_num; linarith)
  obtain ⟨c1, c2⟩ := fl_near_nat (x := t ^ 3) 0 (by norm_num; linarith) (by norm_num; linarith)
  norm_num at a1 a2 b1 b2 c1 c2
  obtain ⟨d1, d2⟩ := fl_near_nat (x := 6 * fl (t ^ 5)) 3
    (by norm_num; linarith) (by norm_num; linarith)
  obtain ⟨e1, e2⟩ := fl_near_nat (x := 15 * fl (t ^ 4)) 4
    (by norm_num; linarith) (by norm_num; linarith)
  obtain ⟨f1, f2⟩ := fl_near_nat (x := 10 * fl (t ^ 3)) 4
    (by norm_num; linarith) (by norm_num; linarith)
  norm_num at d1 d2 e1 e2 f1 f2
  obtain ⟨g1, g2⟩ := fl_near_nat (x := fl (6 * fl (t ^ 5)) - fl (15 * fl (t ^ 4))) 5
    (by norm_num; linarith) (by norm_num; linarith)
  norm_num at g1 g2
  obtain ⟨k1, k2⟩ := fl_near_nat
    (x := fl (fl (6 * fl (t ^ 5)) - fl (15 * fl (t ^ 4))) + fl (10 * fl (t ^ 3))) 6
    (by norm_num; linarith) (by norm_num; linarith)
  norm_num at k1 k2
  unfold mixD powD mix
  constructor
  · norm_num
    linarith
  · norm_num
    linarith

/-! ## The rounded computation at the pixel coordinates -/

/-- Rounding error of `fl` for an argument of magnitude below `2 ^ k`: half a unit in
the last place of the binade below `2 ^ k`. -/
theorem fl_err_lt {x : ℚ} {k : ℤ} (hk : -1021 ≤ k) (hx : |x| < 2 ^ k) :
    |fl x - x| ≤ 2 ^ (k - 54) := by
  by_cases h0 : x = 0
  · subst h0
    rw [fl_zero, sub_zero, abs_zero]
    positivity
  have he : ulpExp x ≤ k - 53 := by
    unfold ulpExp
    apply max_le _ (by omega)
    have h1 := ilog2_le (abs_pos.mpr h0)
    have h2 : (2 : ℚ) ^ ilog2 |x| < 2 ^ k := lt_of_le_of_lt h1 hx
    have := (zpow_lt_zpow_iff_right₀ (by norm_num : (1 : ℚ) < 2)).mp h2
    omega
  have hp : (0 : ℚ) < 2 ^ ulpExp x := by positivity
  have e : fl x - x = ((roundEven (x / 2 ^ ulpExp x) : ℚ) - x / 2 ^ ulpExp x) * 2 ^ ulpExp x := by
    unfold fl
    field_simp
  rw [e, abs_mul, abs_of_pos hp]
  have h1 := roundEven_err (x / 2 ^ ulpExp x)
  have h2 : (2 : ℚ) ^ ulpExp x ≤ 2 ^ (k - 53) :=
    (zpow_le_zpow_iff_right₀ (by norm_num : (1 : ℚ) < 2)).mpr he
  have h3 : (2 : ℚ) ^ (k - 53) = 2 * 2 ^ (k - 54) := by
    have : k - 53 = (k - 54) + 1 := by ring
    rw [this, zpow_add_one₀ (by norm_num)]
    ring
  calc |(roundEven (x / 2 ^ ulpExp x) : ℚ) - x / 2 ^ ulpExp x| * 2 ^ ulpExp x
      ≤ 1 / 2 * 2 ^ ulpExp x := by
        apply mul_le_mul_of_nonneg_right h1 hp.le
    _ ≤ 1 / 2 * 2 ^ (k - 53) := by linarith
    _ = 2 ^ (k - 54) := by rw [h3]; ring

/-- Two-sided form of `fl_err_lt` for a bound `2 ^ j`, `j` a natural number. -/
theorem fl_near_lt_nat {x : ℚ} (j : Nat) (lo : -(2 : ℚ) ^ j < x) (hi : x < 2 ^ j) :
    x - 2 ^ j / 2 ^ 54 ≤ fl x ∧ fl x ≤ x + 2 ^ j / 2 ^ 54 := by
  have e : (2 : ℚ) ^ ((j : ℤ) - 54) = 2 ^ j / 2 ^ 54 := by
    rw [zpow_sub₀ (by norm_num), zpow_natCast]
    norm_num
  have h := abs_le.mp (fl_err_lt (x := x) (k := (j : ℤ)) (by omega)
    (abs_lt.mpr ⟨by rw [zpow_natCast]; exact lo, by rw [zpow_natCast]; exact hi⟩))
  rw [e] at h
  constructor <;> linarith [h.1, h.2]

/-- The integers `0, ..., 5` are `double`s. -/
theorem fl_small_nat : ∀ k : Nat, k < 6 → fl (k : ℚ) = (k : ℚ) := by
  decide!

/-- Facts about a pixel coordinate `x < 600` in rounded arithmetic: the cell index is
the integer quotient, the offset lies in `[0, 1)` and within `2^-50` of
`(x mod 100) / 100`, and it is exactly `0` at the multiples of 100. -/
theorem offsetD_facts (x : Nat) (hx : x < 600) :
    cellIndex (fl ((x : ℚ) / 100)) = x / 100 ∧ 0 ≤ offsetD x ∧ offsetD x < 1 ∧
    offsetD x - ((x % 100 : Nat) : ℚ) / 100 ≤ 1 / 2 ^ 50 ∧
    ((x % 100 : Nat) : ℚ) / 100 - offsetD x ≤ 1 / 2 ^ 50 ∧
    (x % 100 = 0 → offsetD x = 0) := by
  have hk : x / 100 < 6 := by omega
  have hxq : (x : ℚ) / 100 = ((x / 100 : Nat) : ℚ) + ((x % 100 : Nat) : ℚ) / 100 := by
    have h0 : x = 100 * (x / 100) + x % 100 := (Nat.div_add_mod x 100).symm
    have h1 : (x : ℚ) = 100 * ((x / 100 : Nat) : ℚ) + ((x % 100 : Nat) : ℚ) := by
      exact_mod_cast h0
    rw [h1]
    ring
  have hk0 : (0 : ℚ) ≤ ((x / 100 : Nat) : ℚ) := Nat.cast_nonneg _
  have hk5 : ((x / 100 : Nat) : ℚ) ≤ 5 := by
    have : x / 100 ≤ 5 := by omega
    exact_mod_cast this
  by_cases hr : x % 100 = 0
  · have e1 : (x : ℚ) / 100 = ((x / 100 : Nat) : ℚ) := by
      rw [hxq, hr]
      norm_num
    have e2 : cellIndex (fl ((x : ℚ) / 100)) = x / 100 := by
      rw [e1, fl_small_nat _ hk]
      unfold cellIndex
      rw [Int.floor_natCast, Int.toNat_ofNat]
    have e3 : offsetD x = 0 := by
      unfold offsetD
      rw [e2, e1, fl_small_nat _ hk, sub_self, fl_zero]
    rw [e3, hr]
    refine ⟨e2, le_rfl, by norm_num, by norm_num, by norm_num, fun _ => rfl⟩
  · have r1 : (1 : ℚ) ≤ ((x % 100 : Nat) : ℚ) := by
      have : 1 ≤ x % 100 := by omega
      exact_mod_cast this
    have r2 : ((x % 100 : Nat) : ℚ) ≤ 99 := by
      have : x % 100 ≤ 99 := by omega
      exact_mod_cast this
    obtain ⟨a1, a2⟩ := fl_near_lt_nat (x := (x : ℚ) / 100) 3
      (by rw [hxq]; norm_num; linarith) (by rw [hxq]; norm_num; linarith)
    norm_num at a1 a2
    have e2 : cellIndex (fl ((x : ℚ) / 100)) = x / 100 := by
      have hf : ⌊fl ((x : ℚ) / 100)⌋ = ((x / 100 : Nat) : ℤ) := by
        rw [Int.floor_eq_iff, Int.cast_natCast]
        constructor
        · linarith
        · linarith
      unfold cellIndex
      rw [hf, Int.toNat_ofNat]
    obtain ⟨b1, b2⟩ := fl_near_lt_nat
      (x := fl ((x : ℚ) / 100) - ((x / 100 : Nat) : ℚ)) 0
      (by norm_num; linarith) (by norm_num; linarith)
    norm_num at b1 b2
    have e3 : offsetD x = fl (fl ((x : ℚ) / 100) - ((x / 100 : Nat) : ℚ)) := by
      unfold offsetD
      rw [e2]
    rw [e3]
    refine ⟨e2, by linarith, by linarith, by linarith, by linarith, fun h => absurd h hr⟩

theorem mixD_zero : mixD 0 = 0 := by decide!

/-- At every pixel coordinate the rounded easing weight lies in `[0, 1]`. -/
theorem mixD_offsetD_bounds (x : Nat) (hx : x < 600) :
    0 ≤ mixD (offsetD x) ∧ mixD (offsetD x) ≤ 1 := by
  obtain ⟨_, u0, u1, e1, e2, hz⟩ := offsetD_facts x hx
  by_cases hr : x % 100 = 0
  · rw [hz hr, mixD_zero]
    exact ⟨le_rfl, by norm_num⟩
  · have r1 : (1 : ℚ) ≤ ((x % 100 : Nat) : ℚ) := by
      have : 1 ≤ x % 100 := by omega
      exact_mod_cast this
    have r2 : ((x % 100 : Nat) : ℚ) ≤ 99 := by
      have : x % 100 ≤ 99 := by omega
      exact_mod_cast this
    have lo : (1 / 100 - 1 / 2 ^ 50 : ℚ) ≤ offsetD x := by linarith
    have hi : offsetD x ≤ (99 / 100 + 1 / 2 ^ 50 : ℚ) := by linarith
    have m1 := mix_mono lo
    have m2 := mix_mono hi
    have n1 : (1 / 2 ^ 45 : ℚ) ≤ mix (1 / 100 - 1 / 2 ^ 50) := by norm_num [mix]
    have n2 : mix (99 / 100 + 1 / 2 ^ 50) ≤ (1 - 1 / 2 ^ 45 : ℚ) := by norm_num [mix]
    obtain ⟨d1, d2⟩ := mixD_err u0 u1.le
    constructor <;> linarith

/-- Inside the image the four lookups of the rounded computation succeed, at the same
indices as in exact arithmetic, and `noiseAtD` is the rounded blend at the rounded
offsets. -/
theorem noiseAtD_inside (g : Grid) (x y : Nat) (hx : x < WIDTH) (hy : y < HEIGHT) :
    ∃ g00 g10 g01 g11 : Vector2d,
      g.at? (y / 100 * SW + x / 100) = some g00 ∧
      g.at? (y / 100 * SW + x / 100 + 1) = some g10 ∧
      g.at? ((y / 100 + 1) * SW + x / 100) = some g01 ∧
      g.at? ((y / 100 + 1) * SW + x / 100 + 1) = some g11 ∧
      noiseAtD g x y = some (blendD g00 g10 g01 g11 (offsetD x) (offsetD y)) := by
  have cx := (offsetD_facts x hx).1
  have cy := (offsetD_facts y hy).1
  unfold WIDTH at hx
  unfold HEIGHT at hy
  have h00 : y / 100 * SW + x / 100 < SW * SH := by unfold SW SH; omega
  have h10 : y / 100 * SW + x / 100 + 1 < SW * SH := by unfold SW SH; omega
  have h01 : (y / 100 + 1) * SW + x / 100 < SW * SH := by unfold SW SH; omega
  have h11 : (y / 100 + 1) * SW + x / 100 + 1 < SW * SH := by unfold SW SH; omega
  refine ⟨g ⟨_, h00⟩, g ⟨_, h10⟩, g ⟨_, h01⟩, g ⟨_, h11⟩,
    g.at?_lt h00, g.at?_lt h10, g.at?_lt h01, g.at?_lt h11, ?_⟩
  unfold noiseAtD offsetD
  simp only [cx, cy, g.at?_lt h00, g.at?_lt h10, g.at?_lt h01, g.at?_lt h11]
  rfl

/-! ## Claims that depend on the rounding of doubles -/

/-- C2, failing input: `edgeGrid` has all components strictly between `-1` and `1`, yet
at pixel `(50, 50)` the source computes `nxy = 1 - 2^-53` and `nxy * 128 + 128`, rounded
to a `double`, is exactly `256`: the value narrowed to a byte is not below `256`, and
the byte kept is `0`. -/
theorem C2_wraps_at_byte_edge :
    (∀ k, -1 < (edgeGrid k).x ∧ (edgeGrid k).x < 1 ∧
      -1 < (edgeGrid k).y ∧ (edgeGrid k).y < 1) ∧
    50 < WIDTH ∧ 50 < HEIGHT ∧
    noiseAtD edgeGrid 50 50 = some (1 - 1 / 2 ^ 53) ∧
    scaledD (1 - 1 / 2 ^ 53) = 256 ∧ ¬ scaledD (1 - 1 / 2 ^ 53) < 256 ∧
    pixelValD edgeGrid 50 50 = some 0 := by
  decide!

/-- C5, amended: for every gradient grid and every pixel of the 600x600 image, the
source computes a noise value `nxy` and writes the byte `sf::Uint8(nxy * 128 + 128)`;
whenever the `double` value `nxy * 128 + 128` lies in `[0, 256)`, that byte is the value
truncated to its integer part (rounded down, not to nearest), and it lies in `[0, 255]`. -/
theorem C5_byte_is_truncation (g : Grid) (x y : Nat) (hx : x < WIDTH) (hy : y < HEIGHT) :
    ∃ (nxy : ℚ) (b : Nat), noiseAtD g x y = some nxy ∧ pixelValD g x y = some b ∧
      b = toUint8 (scaledD nxy) ∧
      (0 ≤ scaledD nxy → scaledD nxy < 256 →
        b = Int.toNat ⌊scaledD nxy⌋ ∧ b ≤ 255 ∧
        (b : ℚ) ≤ scaledD nxy ∧ scaledD nxy < (b : ℚ) + 1) := by
  obtain ⟨g00, g10, g01, g11, _, _, _, _, hn⟩ := noiseAtD_inside g x y hx hy
  refine ⟨_, _, hn, by unfold pixelValD; rw [hn, Option.map_some'], rfl, ?_⟩
  intro h0 h1
  have hr := toUint8_of_range h0 h1
  rw [hr.1]
  exact ⟨rfl, hr.2.1, hr.2.2.1, hr.2.2.2⟩

/-- Instance of the amended C5 at the grid of constant gradient `(0, 1/2)`, pixel
`(0, 10)`: the source computes `nxy = 6588946398828131 / 2^57`, the byte written is
`133`, and rounding to nearest would give `134`. -/
theorem C5_byte_is_truncation_witness :
    0 < WIDTH ∧ 10 < HEIGHT ∧
    noiseAtD (constGrid ⟨0, 1 / 2⟩) 0 10 = some (6588946398828131 / 2 ^ 57) ∧
    pixelValD (constGrid ⟨0, 1 / 2⟩) 0 10 = some 133 ∧
    specIntensity (6588946398828131 / 2 ^ 57) = 134 ∧
    ∃ (nxy : ℚ) (b : Nat), noiseAtD (constGrid ⟨0, 1 / 2⟩) 0 10 = some nxy ∧
      pixelValD (constGrid ⟨0, 1 / 2⟩) 0 10 = some b ∧ b = toUint8 (scaledD nxy) ∧
      (0 ≤ scaledD nxy → scaledD nxy < 256 →
        b = Int.toNat ⌊scaledD nxy⌋ ∧ b ≤ 255 ∧
        (b : ℚ) ≤ scaledD nxy ∧ scaledD nxy < (b : ℚ) + 1) :=
  ⟨by decide, by decide, by decide!, by decide!, by decide!,
    C5_byte_is_truncation (constGrid ⟨0, 1 / 2⟩) 0 10 (by decide) (by decide)⟩

/-- C12, counterexample: `s = 1 - 5 * 2^-53` and `t = 1` satisfy `0 ≤ s ≤ t ≤ 1`, but
the source computes `mix(s) = 1 + 2^-49` and `mix(t) = 1`, so `mix(s) > mix(t)`. -/
theorem C12_counterexample :
    (0 : ℚ) ≤ 1 - 5 / 2 ^ 53 ∧ (1 - 5 / 2 ^ 53 : ℚ) ≤ 1 ∧ (1 : ℚ) ≤ 1 ∧
    mixD (1 - 5 / 2 ^ 53) = 1 + 1 / 2 ^ 49 ∧ mixD 1 = 1 ∧
    ¬ mixD (1 - 5 / 2 ^ 53) ≤ mixD 1 := by
  decide!

/-- C12, amended: the polynomial `6t^5 - 15t^4 + 10t^3` is non-decreasing, the value
the source computes for it on `[0, 1]` is within `2^-45` of the polynomial, and therefore
for all `0 ≤ s ≤ t ≤ 1` the computed values satisfy `mix(s) ≤ mix(t) + 2^-44`. -/
theorem C12_mix_monotone (s t : ℚ) (hs : 0 ≤ s) (hst : s ≤ t) (ht : t ≤ 1) :
    mix s ≤ mix t ∧ |mixD s - mix s| ≤ 1 / 2 ^ 45 ∧ |mixD t - mix t| ≤ 1 / 2 ^ 45 ∧
    mixD s ≤ mixD t + 1 / 2 ^ 44 := by
  have hm := mix_mono hst
  obtain ⟨a1, a2⟩ := mixD_err hs (le_trans hst ht)
  obtain ⟨b1, b2⟩ := mixD_err (le_trans hs hst) ht
  refine ⟨hm, abs_le.mpr ⟨by linarith, by linarith⟩, abs_le.mpr ⟨by linarith, by linarith⟩, ?_⟩
  have e : (1 / 2 ^ 44 : ℚ) = 1 / 2 ^ 45 + 1 / 2 ^ 45 := by norm_num
  linarith

/-- Instance of the amended C12 at the pair of the counterexample, `s = 1 - 5 * 2^-53`
and `t = 1`. -/
theorem C12_mix_monotone_witness :
    (0 : ℚ) ≤ 1 - 5 / 2 ^ 53 ∧ (1 - 5 / 2 ^ 53 : ℚ) ≤ 1 ∧ (1 : ℚ) ≤ 1 ∧
    mixD (1 - 5 / 2 ^ 53) ≤ mixD 1 + 1 / 2 ^ 44 :=
  ⟨by norm_num, by norm_num, by norm_num,
    (C12_mix_monotone (1 - 5 / 2 ^ 53) 1 (by norm_num) (by norm_num) (by norm_num)).2.2.2⟩

/-- C13, counterexample: for `x = 437` the source computes the offset
`u = 416582965531771 / 2^50`, which is neither `37/100` nor the `double` nearest to
`37/100`. -/
theorem C13_counterexample :
    437 < WIDTH ∧ offsetD 437 = 416582965531771 / 2 ^ 50 ∧
    offsetD 437 ≠ ((437 % 100 : Nat) : ℚ) / 100 ∧ offsetD 437 ≠ fl (37 / 100) := by
  decide!

/-- C13, amended: for every pixel coordinate `x` with `0 ≤ x < 600`, and likewise `y`,
the cell index `i = floor(x / 100.0)` computed by the source is the integer quotient
`x div 100`, and the offset `u = x / 100.0 - i` lies in `[0, 1)` and differs from
`(x mod 100) / 100` by at most `2^-50`; it is exactly `0` when `x` is a multiple of 100. -/
theorem C13_cell_and_offset (x y : Nat) (hx : x < WIDTH) (hy : y < HEIGHT) :
    (cellIndex (fl ((x : ℚ) / 100)) = x / 100 ∧ 0 ≤ offsetD x ∧ offsetD x < 1 ∧
      |offsetD x - ((x % 100 : Nat) : ℚ) / 100| ≤ 1 / 2 ^ 50 ∧
      (x % 100 = 0 → offsetD x = 0)) ∧
    (cellIndex (fl ((y : ℚ) / 100)) = y / 100 ∧ 0 ≤ offsetD y ∧ offsetD y < 1 ∧
      |offsetD y - ((y % 100 : Nat) : ℚ) / 100| ≤ 1 / 2 ^ 50 ∧
      (y % 100 = 0 → offsetD y = 0)) := by
  obtain ⟨a1, a2, a3, a4, a5, a6⟩ := offsetD_facts x hx
  obtain ⟨b1, b2, b3, b4, b5, b6⟩ := offsetD_facts y hy
  exact ⟨⟨a1, a2, a3, abs_le.mpr ⟨by linarith, by linarith⟩, a6⟩,
    ⟨b1, b2, b3, abs_le.mpr ⟨by linarith, by linarith⟩, b6⟩⟩

/-- Instance of the amended C13 at `x = 437`, `y = 599`: cells `4` and `5`. -/
theorem C13_cell_and_offset_witness :
    437 < WIDTH ∧ 599 < HEIGHT ∧
    cellIndex (fl (((437 : Nat) : ℚ) / 100)) = 4 ∧
    |offsetD 437 - ((437 % 100 : Nat) : ℚ) / 100| ≤ 1 / 2 ^ 50 ∧
    cellIndex (fl (((599 : Nat) : ℚ) / 100)) = 5 ∧ offsetD 599 < 1 :=
  ⟨by decide, by decide,
    (C13_cell_and_offset 437 599 (by decide) (by decide)).1.1,
    (C13_cell_and_offset 437 599 (by decide) (by decide)).1.2.2.2.1,
    (C13_cell_and_offset 437 599 (by decide) (by decide)).2.1,
    (C13_cell_and_offset 437 599 (by decide) (by decide)).2.2.2.1⟩

/-- C16, counterexample: `t = 1 - 5 * 2^-53` lies in `[0, 1]`, but the source computes
`mix(t) = 1 + 2^-49`, which is above `1`. -/
theorem C16_counterexample :
    (0 : ℚ) ≤ 1 - 5 / 2 ^ 53 ∧ (1 - 5 / 2 ^ 53 : ℚ) ≤ 1 ∧
    mixD (1 - 5 / 2 ^ 53) = 1 + 1 / 2 ^ 49 ∧ mixD (1 - 5 / 2 ^ 53) > 1 ∧
    ¬ (0 ≤ mixD (1 - 5 / 2 ^ 53) ∧ mixD (1 - 5 / 2 ^ 53) ≤ 1) := by
  decide!

/-- C16, amended: for every pixel `(x, y)` of the 600x600 image the easing weights the
source computes satisfy `0 ≤ mix(u) ≤ 1` and `0 ≤ mix(v) ≤ 1`, so the test `mix(u) > 1`
that prints `"Bad "` never holds at a pixel; for an arbitrary `t` in `[0, 1]` the
computed value satisfies `-2^-45 ≤ mix(t) ≤ 1 + 2^-45`. -/
theorem C16_diagnostic_unreachable (x y : Nat) (hx : x < WIDTH) (hy : y < HEIGHT)
    (t : ℚ) (ht0 : 0 ≤ t) (ht1 : t ≤ 1) :
    (0 ≤ mixD (offsetD x) ∧ mixD (offsetD x) ≤ 1) ∧
    (0 ≤ mixD (offsetD y) ∧ mixD (offsetD y) ≤ 1) ∧
    ¬ mixD (offsetD x) > 1 ∧ (∀ s : Raster, diagnoseD s (offsetD x) = s) ∧
    (-(1 / 2 ^ 45) ≤ mixD t ∧ mixD t ≤ 1 + 1 / 2 ^ 45) := by
  have bx := mixD_offsetD_bounds x hx
  have bY := mixD_offsetD_bounds y hy
  obtain ⟨e1, e2⟩ := mixD_err ht0 ht1
  have m0 := mix_nonneg ht0
  have m1 := mix_le_one ht0 ht1
  refine ⟨bx, bY, not_lt.mpr bx.2, ?_, by linarith, by linarith⟩
  intro s
  unfold diagnoseD
  rw [if_neg (not_lt.mpr bx.2)]

/-- Instance of the amended C16 at pixel `(599, 599)` and `t = 1 - 5 * 2^-53`. -/
theorem C16_diagnostic_unreachable_witness :
    599 < WIDTH ∧ 599 < HEIGHT ∧ (0 : ℚ) ≤ 1 - 5 / 2 ^ 53 ∧ (1 - 5 / 2 ^ 53 : ℚ) ≤ 1 ∧
    ¬ mixD (offsetD 599) > 1 ∧ mixD (1 - 5 / 2 ^ 53) ≤ 1 + 1 / 2 ^ 45 :=
  ⟨by decide, by decide, by norm_num, by norm_num,
    (C16_diagnostic_unreachable 599 599 (by decide) (by decide) (1 - 5 / 2 ^ 53)
      (by norm_num) (by norm_num)).2.2.1,
    (C16_diagnostic_unreachable 599 599 (by decide) (by decide) (1 - 5 / 2 ^ 53)
      (by norm_num) (by norm_num)).2.2.2.2.2⟩

/-- C17, failing input: the noise values `a = 0` and `b = 1 - 2^-53` satisfy
`-1 ≤ a ≤ b < 1`; the source gives `a` the byte `128`, but for `b` it computes
`b * 128 + 128 = 256` exactly, and the byte kept is `0`. Pixel `(0, 0)` of `edgeGrid`
has noise `a` and pixel `(50, 50)` has noise `b`. -/
theorem C17_brightest_is_black :
    (-1 : ℚ) ≤ 0 ∧ (0 : ℚ) ≤ 1 - 1 / 2 ^ 53 ∧ (1 - 1 / 2 ^ 53 : ℚ) < 1 ∧
    toUint8 (scaledD 0) = 128 ∧ toUint8 (scaledD (-1)) = 0 ∧
    scaledD (1 - 1 / 2 ^ 53) = 256 ∧ toUint8 (scaledD (1 - 1 / 2 ^ 53)) = 0 ∧
    ¬ toUint8 (scaledD 0) ≤ toUint8 (scaledD (1 - 1 / 2 ^ 53)) ∧
    noiseAtD edgeGrid 0 0 = some 0 ∧ pixelValD edgeGrid 0 0 = some 128 ∧
    noiseAtD edgeGrid 50 50 = some (1 - 1 / 2 ^ 53) ∧ pixelValD edgeGrid 50 50 = some 0 := by
  decide!

end PerlinNoise
